import Mathlib

/-!
Shallow embedding of the release-reconciliation core of
crossplane-contrib/provider-helm, together with proofs of the
specification claims about it.

The Go sources embedded here:
  * pkg/controller/values.go            (composeValuesFromSpec, mergeMaps)
  * pkg/controller/values_test.go       (data.go portion: getSecretData,
                                         getConfigMapData, getDataValueFromSource)
  * pkg/controller/cluster/release/patch.go  (hasUpdates, shaOf, getFromSpec)
  * pkg/controller/release/auth_provider.go  (isUpToDate, v1beta1)
  * pkg/controller/helmrelease.go       (isUpToDate, legacy v1alpha1)
  * the release controller (unnamed part_002: Observe/deploy/Update,
                            shouldRollBack, rollBackEnabled, rollBackLimitReached)
  * the Helm gateway (unnamed part_009: PullAndLoadChart and helpers)

Go maps `map[string]interface{}` are embedded as ordered association
lists (`Fields`); Go's iteration-order nondeterminism is irrelevant for
the embedded operations because keys are unique in a Go map, which we
carry as `Fields.WfB` where a proof needs it.  External library calls
(YAML parsing, Helm strvals parsing) are parameters of the embedded
functions; everything the repository itself implements is embedded
concretely.
-/

namespace ProviderHelm

/-! ## Errors

Embeds the `github.com/pkg/errors` discipline used throughout the repo:
`errors.New` builds a message error, `errors.Wrap` wraps a cause with a
constant message, `errors.Cause` unwraps, and `kerrors.IsNotFound`
recognizes the Kubernetes not-found error at the root of a chain. -/

inductive GoError where
  /-- the Kubernetes NotFound error returned by `kube.Get` for an absent object -/
  | kNotFound : GoError
  /-- an `errors.New(msg)` error -/
  | msg : String → GoError
  /-- an `errors.Wrap(cause, msg)` error -/
  | wrap : String → GoError → GoError
deriving DecidableEq, Repr

def GoError.cause : GoError → GoError
  | .wrap _ e => e.cause
  | e => e

/-- `kerrors.IsNotFound` applied to the root cause, as the resolver does. -/
def GoError.isNotFound (e : GoError) : Bool :=
  e.cause = GoError.kNotFound

/-! ## Error message constants (values.go, data.go, patch.go, helmrelease.go) -/

def keyDefaultValuesFrom : String := "values.yaml"
def keyDefaultSet : String := "value"
def keyDefaultPatchFrom : String := "patch.yaml"

def errFailedToUnmarshalDesiredValues : String := "failed to unmarshal desired values"
def errFailedParsingSetData : String := "failed parsing --set data"
def errFailedToGetValueFromSource : String := "failed to get value from source"
def errMissingValueForSet : String := "missing value for --set"

def errSecretDataIsNil : String := "secret data is nil"
def errConfigMapDataIsNil : String := "configmap data is nil"
def errSourceNotSetForValueFrom : String := "source not set for value from"
def errFailedToGetDataFromSecretRef : String := "failed to get data from secret ref"
def errFailedToGetDataFromConfigMapRef : String := "failed to get data from configmap ref"

/-- source format string `failed to get secret from namespace "%s"`, applied -/
def errFailedToGetSecret (ns : String) : String :=
  "failed to get secret from namespace \"" ++ ns ++ "\""

/-- source format string `failed to get configmap from namespace "%s"`, applied -/
def errFailedToGetConfigMap (ns : String) : String :=
  "failed to get configmap from namespace \"" ++ ns ++ "\""

/-- source format string `missing key "%s" in values from source`, applied -/
def errMissingKeyForValuesFrom (k : String) : String :=
  "missing key \"" ++ k ++ "\" in values from source"

def errFailedToUnmarshallPatch : String := "failed to unmarshal patch"

/-! ## API types (apis/release/v1beta1/types.go) -/

structure NamespacedName where
  namespaceN : String
  name : String
deriving DecidableEq, Repr

structure DataKeySelector where
  nn : NamespacedName
  key : String
  optional : Bool
deriving DecidableEq, Repr

structure ValueFromSource where
  configMapKeyRef : Option DataKeySelector
  secretKeyRef : Option DataKeySelector
deriving DecidableEq, Repr

structure SetVal where
  name : String
  value : String
  valueFrom : Option ValueFromSource
deriving DecidableEq, Repr

/-! ## The control-plane reads

A secret or config map fetched by name either is absent (Kubernetes
NotFound), present with a nil data field, or present with key/value
data.  This is exactly what `kube.Get` + the nil check in
`getSecretData` / `getConfigMapData` can observe. -/

inductive FetchResult where
  | absent : FetchResult
  | nilData : FetchResult
  | withData : List (String × String) → FetchResult
deriving DecidableEq, Repr

/-- The control-plane client as the resolver sees it: what `kube.Get`
returns for each secret and each config map, keyed by namespace and name. -/
structure Kube where
  secrets : String → String → FetchResult
  configmaps : String → String → FetchResult

def dataLookup (d : List (String × String)) (k : String) : Option String :=
  match d with
  | [] => none
  | (k0, v) :: rest => if k0 = k then some v else dataLookup rest k

/-- Embeds `getSecretData` (data.go): NotFound and nil-data become errors,
otherwise the data mapping is returned. -/
def getSecretData (kube : Kube) (nn : NamespacedName) :
    Except GoError (List (String × String)) :=
  match kube.secrets nn.namespaceN nn.name with
  | .absent => .error (.wrap (errFailedToGetSecret nn.namespaceN) .kNotFound)
  | .nilData => .error (.msg errSecretDataIsNil)
  | .withData d => .ok d

/-- Embeds `getConfigMapData` (data.go). -/
def getConfigMapData (kube : Kube) (nn : NamespacedName) :
    Except GoError (List (String × String)) :=
  match kube.configmaps nn.namespaceN nn.name with
  | .absent => .error (.wrap (errFailedToGetConfigMap nn.namespaceN) .kNotFound)
  | .nilData => .error (.msg errConfigMapDataIsNil)
  | .withData d => .ok d

/-- Embeds `getDataValueFromSource` (data.go): resolve one value from a
secret ref or a config-map ref, honoring `Optional` for both the absent
object and the absent key, with `defaultKey` used when `Key` is empty. -/
def getDataValueFromSource (kube : Kube) (source : ValueFromSource)
    (defaultKey : String) : Except GoError String :=
  match source.secretKeyRef with
  | some r =>
    match getSecretData kube r.nn with
    | .error e =>
      if e.isNotFound ∧ ¬ r.optional then
        .error (.wrap errFailedToGetDataFromSecretRef e)
      else if ¬ e.isNotFound then
        .error (.wrap errFailedToGetDataFromSecretRef e)
      else
        -- absent but optional: d is nil, the key lookup below misses
        let k := if r.key = "" then defaultKey else r.key
        if ¬ r.optional then .error (.msg (errMissingKeyForValuesFrom k))
        else .ok ""
    | .ok d =>
      let k := if r.key = "" then defaultKey else r.key
      match dataLookup d k with
      | some v => .ok v
      | none =>
        if ¬ r.optional then .error (.msg (errMissingKeyForValuesFrom k))
        else .ok ""
  | none =>
    match source.configMapKeyRef with
    | some r =>
      match getConfigMapData kube r.nn with
      | .error e =>
        if e.isNotFound ∧ ¬ r.optional then
          .error (.wrap errFailedToGetDataFromConfigMapRef e)
        else if ¬ e.isNotFound then
          .error (.wrap errFailedToGetDataFromConfigMapRef e)
        else
          let k := if r.key = "" then defaultKey else r.key
          if ¬ r.optional then .error (.msg (errMissingKeyForValuesFrom k))
          else .ok ""
      | .ok d =>
        let k := if r.key = "" then defaultKey else r.key
        match dataLookup d k with
        | some v => .ok v
        | none =>
          if ¬ r.optional then .error (.msg (errMissingKeyForValuesFrom k))
          else .ok ""
    | none => .error (.msg errSourceNotSetForValueFrom)

/-! ## YAML-like values

`map[string]interface{}` values: scalars are kept abstract as strings,
sequences and nested mappings are structural.  Mappings are ordered
association lists; a well-formed one (what a Go map can be) has unique
keys at every level. -/

mutual
inductive Val where
  | scalar : String → Val
  | arr : Elems → Val
  | vmap : Fields → Val
deriving DecidableEq, Repr

inductive Elems where
  | enil : Elems
  | econs : Val → Elems → Elems
deriving DecidableEq, Repr

inductive Fields where
  | fnil : Fields
  | fcons : String → Val → Fields → Fields
deriving DecidableEq, Repr
end

namespace Fields

def lookup : Fields → String → Option Val
  | .fnil, _ => none
  | .fcons k v rest, key => if k = key then some v else rest.lookup key

def hasKey (a : Fields) (k : String) : Bool :=
  (a.lookup k).isSome

/-- Go's `out[k] = v`: replace the entry in place, or append a new one. -/
def setKey : Fields → String → Val → Fields
  | .fnil, key, v => .fcons key v .fnil
  | .fcons k v0 rest, key, v =>
    if k = key then .fcons k v rest else .fcons k v0 (rest.setKey key v)

def keys : Fields → List String
  | .fnil => []
  | .fcons k _ rest => k :: rest.keys

def append : Fields → Fields → Fields
  | .fnil, b => b
  | .fcons k v rest, b => .fcons k v (rest.append b)

end Fields

/-- Embeds `mergeMaps` (values.go): copy `a`, then for each entry of `b`,
recurse when both sides hold mappings and otherwise overwrite. -/
def mergeMaps : Fields → Fields → Fields
  | a, .fnil => a
  | a, .fcons k (.vmap vm) rest =>
    (match a.lookup k with
     | some (.vmap am) => mergeMaps (a.setKey k (.vmap (mergeMaps am vm))) rest
     | _ => mergeMaps (a.setKey k (.vmap vm)) rest)
  | a, .fcons k v rest => mergeMaps (a.setKey k v) rest
termination_by a b => sizeOf b
decreasing_by
  all_goals simp_wf
  all_goals omega

/-- The value stored for one key of `b` during `mergeMaps a b`: recurse
when both sides are mappings, otherwise the `b` side replaces. -/
def mergeEntry (av : Option Val) (v : Val) : Val :=
  match v, av with
  | .vmap vm, some (.vmap am) => .vmap (mergeMaps am vm)
  | _, _ => v

@[simp] theorem mergeMaps_fnil (a : Fields) : mergeMaps a .fnil = a := by
  simp [mergeMaps]

theorem mergeMaps_fcons (a : Fields) (k : String) (v : Val) (rest : Fields) :
    mergeMaps a (.fcons k v rest) =
      mergeMaps (a.setKey k (mergeEntry (a.lookup k) v)) rest := by
  cases v with
  | scalar s =>
    cases h : a.lookup k with
    | none => simp [mergeMaps, mergeEntry, h]
    | some w => cases w <;> simp [mergeMaps, mergeEntry, h]
  | arr es =>
    cases h : a.lookup k with
    | none => simp [mergeMaps, mergeEntry, h]
    | some w => cases w <;> simp [mergeMaps, mergeEntry, h]
  | vmap vm =>
    cases h : a.lookup k with
    | none => simp [mergeMaps, mergeEntry, h]
    | some w => cases w <;> simp [mergeMaps, mergeEntry, h]

namespace Fields

/-- induction along the spine of a field list (the values stay opaque) -/
theorem inductionOn {motive : Fields → Prop} (fnil : motive .fnil)
    (fcons : ∀ (k : String) (v : Val) (rest : Fields),
      motive rest → motive (.fcons k v rest)) :
    ∀ a, motive a
  | .fnil => fnil
  | .fcons k v rest => fcons k v rest (inductionOn fnil fcons rest)

@[simp] theorem lookup_setKey (a : Fields) (k : String) (v : Val) (k' : String) :
    (a.setKey k v).lookup k' = if k = k' then some v else a.lookup k' := by
  induction a using Fields.inductionOn with
  | fnil => by_cases h : k = k' <;> simp [setKey, lookup, h]
  | fcons k0 v0 rest ih =>
    by_cases h0 : k0 = k
    · subst h0
      by_cases h : k0 = k' <;> simp [setKey, lookup, h]
    · by_cases h : k0 = k'
      · subst h
        have hne : ¬ (k = k0) := fun hh => h0 hh.symm
        simp [setKey, h0, lookup, hne]
      · simp [setKey, h0, lookup, h, ih]

theorem hasKey_iff_lookup (a : Fields) (k : String) :
    a.hasKey k = true ↔ ∃ v, a.lookup k = some v := by
  simp [hasKey, Option.isSome_iff_exists]

/-- well-formed key list: what a Go map guarantees at top level -/
def NodupKeys (a : Fields) : Prop := a.keys.Nodup

theorem lookup_eq_none_of_not_mem_keys {a : Fields} {k : String}
    (h : k ∉ a.keys) : a.lookup k = none := by
  induction a using Fields.inductionOn with
  | fnil => rfl
  | fcons k0 v0 rest ih =>
    simp [keys] at h
    have hne : ¬ (k0 = k) := fun hh => h.1 hh.symm
    simp [lookup, hne, ih h.2]

theorem mem_keys_of_lookup {a : Fields} {k : String} {v : Val}
    (h : a.lookup k = some v) : k ∈ a.keys := by
  induction a using Fields.inductionOn with
  | fnil => simp [lookup] at h
  | fcons k0 v0 rest ih =>
    by_cases h0 : k0 = k
    · subst h0; simp [keys]
    · simp [lookup, h0] at h
      simp [keys, ih h]

end Fields

theorem lookup_mergeMaps (a b : Fields) (hb : b.NodupKeys) (k : String) :
    (mergeMaps a b).lookup k =
      match b.lookup k with
      | none => a.lookup k
      | some v => some (mergeEntry (a.lookup k) v) := by
  induction b using Fields.inductionOn generalizing a with
  | fnil => simp [Fields.lookup]
  | fcons k0 v0 rest ih =>
    have hb' : rest.NodupKeys := by
      have := hb
      simp [Fields.NodupKeys, Fields.keys, List.nodup_cons] at this
      exact this.2
    have hk0 : k0 ∉ rest.keys := by
      have := hb
      simp [Fields.NodupKeys, Fields.keys, List.nodup_cons] at this
      exact this.1
    rw [mergeMaps_fcons, ih _ hb']
    by_cases h : k0 = k
    · subst h
      rw [Fields.lookup_eq_none_of_not_mem_keys hk0]
      simp [Fields.lookup]
    · simp [Fields.lookup, h]

theorem hasKey_mergeMaps (a b : Fields) (hb : b.NodupKeys) (k : String) :
    (mergeMaps a b).hasKey k = (a.hasKey k || b.hasKey k) := by
  rw [Fields.hasKey, lookup_mergeMaps a b hb k]
  cases h : b.lookup k <;> simp [Fields.hasKey, h]

/-! ## Value composition (values.go `composeValuesFromSpec`)

External parsers appear as parameters: `pYaml` stands for
`yaml.Unmarshal` into `map[string]interface{}`, `pSet` for
`strvals.ParseInto("name=value", base)` (which returns the updated
accumulator or a parse error). -/

structure ValuesSpec where
  values : String
  valuesFrom : List ValueFromSource
  set : List SetVal

/-- the `for _, vf := range spec.ValuesFrom` loop of `composeValuesFromSpec` -/
def composeLoop1 (kube : Kube) (pYaml : String → Except GoError Fields) :
    List ValueFromSource → Fields → Except GoError Fields
  | [], base => .ok base
  | vf :: rest, base =>
    match getDataValueFromSource kube vf keyDefaultValuesFrom with
    | .error e => .error (.wrap errFailedToGetValueFromSource e)
    | .ok s =>
      match pYaml s with
      | .error e => .error (.wrap errFailedToUnmarshalDesiredValues e)
      | .ok currVals => composeLoop1 kube pYaml rest (mergeMaps base currVals)

/-- resolution of the `v` for one `set` entry: `Value` if set, overridden
by `ValueFrom` when that is present -/
def setResolvedValue (kube : Kube) (s : SetVal) : Except GoError String :=
  match s.valueFrom with
  | some vf =>
    match getDataValueFromSource kube vf keyDefaultSet with
    | .error e => .error (.wrap errFailedToGetValueFromSource e)
    | .ok v => .ok v
  | none => .ok (if s.value ≠ "" then s.value else "")

/-- the `for _, s := range spec.Set` loop of `composeValuesFromSpec` -/
def composeLoop2 (kube : Kube)
    (pSet : String → String → Fields → Except GoError Fields) :
    List SetVal → Fields → Except GoError Fields
  | [], base => .ok base
  | s :: rest, base =>
    match setResolvedValue kube s with
    | .error e => .error e
    | .ok v =>
      if v = "" then .error (.msg errMissingValueForSet)
      else
        match pSet s.name v base with
        | .error e => .error (.wrap errFailedParsingSetData e)
        | .ok base' => composeLoop2 kube pSet rest base'

/-- Embeds `composeValuesFromSpec` (values.go): empty accumulator, the
`valuesFrom` merge loop, the inline-values merge, then the `set` loop. -/
def composeValuesFromSpec (kube : Kube)
    (pYaml : String → Except GoError Fields)
    (pSet : String → String → Fields → Except GoError Fields)
    (spec : ValuesSpec) : Except GoError Fields :=
  match composeLoop1 kube pYaml spec.valuesFrom .fnil with
  | .error e => .error e
  | .ok base =>
    match pYaml spec.values with
    | .error e => .error (.wrap errFailedToUnmarshalDesiredValues e)
    | .ok inlineVals => composeLoop2 kube pSet spec.set (mergeMaps base inlineVals)

/-- the `valuesFrom` entries resolve (through the control plane and the
YAML parser) to the given list of mappings, in declaration order -/
inductive ResolvesTo (kube : Kube) (pYaml : String → Except GoError Fields) :
    List ValueFromSource → List Fields → Prop where
  | nil : ResolvesTo kube pYaml [] []
  | cons {vf : ValueFromSource} {s : String} {m : Fields}
      {vfs : List ValueFromSource} {ms : List Fields} :
      getDataValueFromSource kube vf keyDefaultValuesFrom = .ok s →
      pYaml s = .ok m →
      ResolvesTo kube pYaml vfs ms →
      ResolvesTo kube pYaml (vf :: vfs) (m :: ms)

theorem composeLoop1_resolved {kube : Kube}
    {pYaml : String → Except GoError Fields}
    {vfs : List ValueFromSource} {ms : List Fields}
    (h : ResolvesTo kube pYaml vfs ms) (base : Fields) :
    composeLoop1 kube pYaml vfs base = .ok (ms.foldl mergeMaps base) := by
  induction h generalizing base with
  | nil => simp [composeLoop1]
  | cons hres hparse _ ih => simp [composeLoop1, hres, hparse, ih]

theorem composeLoop2_append (kube : Kube)
    (pSet : String → String → Fields → Except GoError Fields)
    (xs ys : List SetVal) (base : Fields) :
    composeLoop2 kube pSet (xs ++ ys) base =
      match composeLoop2 kube pSet xs base with
      | .error e => .error e
      | .ok base' => composeLoop2 kube pSet ys base' := by
  induction xs generalizing base with
  | nil => simp [composeLoop2]
  | cons s rest ih =>
    cases hres : setResolvedValue kube s with
    | error e => simp [composeLoop2, hres]
    | ok v =>
      by_cases hv : v = ""
      · simp [composeLoop2, hres, hv]
      · cases hp : pSet s.name v base with
        | error e => simp [composeLoop2, hres, hv, hp]
        | ok base' => simp [composeLoop2, hres, hv, hp, ih]

/-! ## Claim C1 -/

/-- C1: `composeValuesFromSpec` starts from an empty mapping, deep-merges
each `valuesFrom` entry in declaration order, deep-merges the inline
values, then applies the `set` entries in order; in the deep merge a key
held as a mapping on both sides recurses and every other key is replaced
by the later layer; a `set` entry whose resolved value is the empty
string fails the whole composition with the missing-value error. -/
theorem composeValues_order_merge_and_set (kube : Kube)
    (pYaml : String → Except GoError Fields)
    (pSet : String → String → Fields → Except GoError Fields)
    (spec : ValuesSpec) :
    -- (1) empty start, valuesFrom deep-merged in order, then inline, then sets
    (∀ ms inl, ResolvesTo kube pYaml spec.valuesFrom ms →
      pYaml spec.values = .ok inl →
      composeValuesFromSpec kube pYaml pSet spec =
        composeLoop2 kube pSet spec.set
          (mergeMaps (ms.foldl mergeMaps .fnil) inl)) ∧
    -- (2a) both sides mappings: the merge recurses
    (∀ a b k am vm, b.NodupKeys →
      a.lookup k = some (.vmap am) → b.lookup k = some (.vmap vm) →
      (mergeMaps a b).lookup k = some (.vmap (mergeMaps am vm))) ∧
    -- (2b) otherwise the later layer wins
    (∀ a b k v, b.NodupKeys → b.lookup k = some v →
      (¬ ∃ am vm, a.lookup k = some (.vmap am) ∧ v = .vmap vm) →
      (mergeMaps a b).lookup k = some v) ∧
    -- (2c) keys absent from the later layer keep the earlier value
    (∀ a b k, b.NodupKeys → b.lookup k = none →
      (mergeMaps a b).lookup k = a.lookup k) ∧
    -- (3) an empty resolved set value fails the whole set loop
    (∀ xs s ys base base', spec.set = xs ++ s :: ys →
      composeLoop2 kube pSet xs base = .ok base' →
      setResolvedValue kube s = .ok "" →
      composeLoop2 kube pSet spec.set base = .error (.msg errMissingValueForSet)) := by
  refine ⟨?_, ?_, ?_, ?_, ?_⟩
  · intro ms inl hres hinl
    rw [composeValuesFromSpec, composeLoop1_resolved hres, hinl]
  · intro a b k am vm hb ha hbk
    rw [lookup_mergeMaps a b hb k, hbk, ha]
    simp [mergeEntry]
  · intro a b k v hb hbk hnot
    rw [lookup_mergeMaps a b hb k, hbk]
    cases v with
    | scalar s => simp [mergeEntry]
    | arr es => simp [mergeEntry]
    | vmap vm =>
      cases hak : a.lookup k with
      | none => simp [mergeEntry]
      | some w =>
        cases w with
        | scalar s => simp [mergeEntry]
        | arr es => simp [mergeEntry]
        | vmap am => exact absurd ⟨am, vm, hak, rfl⟩ hnot
  · intro a b k hb hbk
    rw [lookup_mergeMaps a b hb k, hbk]
  · intro xs s ys base base' hset hxs hres
    rw [hset, composeLoop2_append, hxs]
    simp [composeLoop2, hres]

/-- concrete control plane used by the claim witnesses: one secret
`ns/s1` holding `values.yaml: "a: 1"`, everything else absent -/
def kubeW : Kube where
  secrets := fun ns name =>
    if ns = "ns" ∧ name = "s1" then .withData [("values.yaml", "a: 1")]
    else .absent
  configmaps := fun _ _ => .absent

/-- concrete stand-in for `yaml.Unmarshal` used by the witnesses -/
def pYamlW : String → Except GoError Fields := fun s =>
  if s = "a: 1" then .ok (.fcons "a" (.scalar "1") .fnil) else .ok .fnil

/-- concrete stand-in for `strvals.ParseInto` used by the witnesses -/
def pSetW : String → String → Fields → Except GoError Fields :=
  fun n v base => .ok (base.setKey n (.scalar v))

def vfW : ValueFromSource :=
  { configMapKeyRef := none
    secretKeyRef := some { nn := { namespaceN := "ns", name := "s1" }, key := "", optional := false } }

/-- a set entry whose `Value` is empty and which carries no `ValueFrom` -/
def setValEmptyW : SetVal := { name := "x", value := "", valueFrom := none }

def specW : ValuesSpec :=
  { values := "", valuesFrom := [vfW], set := [setValEmptyW] }

theorem composeValues_order_merge_and_set_witness :
    (ResolvesTo kubeW pYamlW specW.valuesFrom [Fields.fcons "a" (.scalar "1") .fnil] ∧
      pYamlW specW.values = .ok .fnil ∧
      composeValuesFromSpec kubeW pYamlW pSetW specW =
        composeLoop2 kubeW pSetW specW.set
          (mergeMaps (List.foldl mergeMaps .fnil [Fields.fcons "a" (.scalar "1") .fnil]) .fnil)) ∧
    (specW.set = [] ++ setValEmptyW :: [] ∧
      composeLoop2 kubeW pSetW [] .fnil = .ok .fnil ∧
      setResolvedValue kubeW setValEmptyW = .ok "" ∧
      composeLoop2 kubeW pSetW specW.set .fnil = .error (.msg errMissingValueForSet)) := by
  have hres : ResolvesTo kubeW pYamlW specW.valuesFrom
      [Fields.fcons "a" (.scalar "1") .fnil] := by
    exact @ResolvesTo.cons kubeW pYamlW vfW "a: 1"
      (Fields.fcons "a" (Val.scalar "1") Fields.fnil) [] [] rfl rfl .nil
  refine ⟨⟨hres, rfl, ?_⟩, rfl, rfl, rfl, ?_⟩
  · exact (composeValues_order_merge_and_set kubeW pYamlW pSetW specW).1 _ _ hres rfl
  · exact (composeValues_order_merge_and_set kubeW pYamlW pSetW specW).2.2.2.2
      [] setValEmptyW [] .fnil .fnil rfl rfl rfl

/-! ## Claim C5 -/

/-- C5: the data-source resolver fails with a not-found error when the
referenced object is absent and `optional=false`, returns the empty
string when absent and `optional=true`, fails with the missing-key error
when the key (or the default key when the key is empty) is missing and
`optional=false`, returns the empty string otherwise, and fails with the
source-unset error when neither ref is set. -/
theorem getDataValueFromSource_error_handling (kube : Kube)
    (r : DataKeySelector) (defaultKey : String) :
    -- secret ref, object absent: the failure is a (wrapped) not-found error
    (kube.secrets r.nn.namespaceN r.nn.name = .absent → r.optional = false →
      getDataValueFromSource kube { configMapKeyRef := none, secretKeyRef := some r } defaultKey =
        .error (.wrap errFailedToGetDataFromSecretRef
          (.wrap (errFailedToGetSecret r.nn.namespaceN) .kNotFound)) ∧
      (GoError.wrap errFailedToGetDataFromSecretRef
        (.wrap (errFailedToGetSecret r.nn.namespaceN) .kNotFound)).isNotFound = true) ∧
    (kube.secrets r.nn.namespaceN r.nn.name = .absent → r.optional = true →
      getDataValueFromSource kube { configMapKeyRef := none, secretKeyRef := some r } defaultKey = .ok "") ∧
    -- secret ref, object present, key missing
    (∀ d, kube.secrets r.nn.namespaceN r.nn.name = .withData d →
      dataLookup d (if r.key = "" then defaultKey else r.key) = none →
      getDataValueFromSource kube { configMapKeyRef := none, secretKeyRef := some r } defaultKey =
        (if r.optional then .ok ""
         else .error (.msg (errMissingKeyForValuesFrom (if r.key = "" then defaultKey else r.key))))) ∧
    -- config map ref, object absent
    (kube.configmaps r.nn.namespaceN r.nn.name = .absent → r.optional = false →
      getDataValueFromSource kube { configMapKeyRef := some r, secretKeyRef := none } defaultKey =
        .error (.wrap errFailedToGetDataFromConfigMapRef
          (.wrap (errFailedToGetConfigMap r.nn.namespaceN) .kNotFound))) ∧
    (kube.configmaps r.nn.namespaceN r.nn.name = .absent → r.optional = true →
      getDataValueFromSource kube { configMapKeyRef := some r, secretKeyRef := none } defaultKey = .ok "") ∧
    -- config map ref, object present, key missing
    (∀ d, kube.configmaps r.nn.namespaceN r.nn.name = .withData d →
      dataLookup d (if r.key = "" then defaultKey else r.key) = none →
      getDataValueFromSource kube { configMapKeyRef := some r, secretKeyRef := none } defaultKey =
        (if r.optional then .ok ""
         else .error (.msg (errMissingKeyForValuesFrom (if r.key = "" then defaultKey else r.key))))) ∧
    -- neither source set
    (getDataValueFromSource kube { configMapKeyRef := none, secretKeyRef := none } defaultKey =
      .error (.msg errSourceNotSetForValueFrom)) := by
  refine ⟨?_, ?_, ?_, ?_, ?_, ?_, ?_⟩
  · intro habs hopt
    refine ⟨?_, ?_⟩
    · simp [getDataValueFromSource, getSecretData, habs, hopt, GoError.isNotFound, GoError.cause]
    · simp [GoError.isNotFound, GoError.cause]
  · intro habs hopt
    simp [getDataValueFromSource, getSecretData, habs, hopt, GoError.isNotFound, GoError.cause]
  · intro d hdata hkey
    cases hopt : r.optional <;>
      simp [getDataValueFromSource, getSecretData, hdata, hkey, hopt]
  · intro habs hopt
    simp [getDataValueFromSource, getConfigMapData, habs, hopt, GoError.isNotFound, GoError.cause]
  · intro habs hopt
    simp [getDataValueFromSource, getConfigMapData, habs, hopt, GoError.isNotFound, GoError.cause]
  · intro d hdata hkey
    cases hopt : r.optional <;>
      simp [getDataValueFromSource, getConfigMapData, hdata, hkey, hopt]
  · simp [getDataValueFromSource]

/-- a required (non-optional) selector naming an object that `kubeW` does not hold -/
def selAbsentW : DataKeySelector :=
  { nn := { namespaceN := "nx", name := "missing" }, key := "", optional := false }

theorem getDataValueFromSource_error_handling_witness :
    (kubeW.secrets selAbsentW.nn.namespaceN selAbsentW.nn.name = .absent ∧
      selAbsentW.optional = false ∧
      getDataValueFromSource kubeW
          { configMapKeyRef := none, secretKeyRef := some selAbsentW } "values.yaml" =
        .error (.wrap errFailedToGetDataFromSecretRef
          (.wrap (errFailedToGetSecret "nx") .kNotFound))) ∧
    getDataValueFromSource kubeW { configMapKeyRef := none, secretKeyRef := none } "values.yaml" =
      .error (.msg errSourceNotSetForValueFrom) := by
  refine ⟨⟨by decide, rfl, ?_⟩, ?_⟩
  · exact ((getDataValueFromSource_error_handling kubeW selAbsentW "values.yaml").1
      (by decide) rfl).1
  · exact (getDataValueFromSource_error_handling kubeW selAbsentW "values.yaml").2.2.2.2.2.2

/-! ## Claim C9: merge associativity

Analysis layer for `mergeMaps`: a closed form as "override the earlier
map entrywise, then append the genuinely new later entries", plus
recursive well-formedness (unique keys at every level, as in any Go map)
and the non-conflict relation of the claim (every key shared between two
layers holds mappings on both sides, recursively — no mapping/non-mapping
clash and no scalar overlap). -/

namespace Fields

def mapEntries (f : String → Val → Val) : Fields → Fields
  | .fnil => .fnil
  | .fcons k v rest => .fcons k (f k v) (mapEntries f rest)

/-- what one entry of the earlier map becomes under a later layer `b` -/
def ovStep (b : Fields) (k : String) (v : Val) : Val :=
  match b.lookup k with
  | none => v
  | some bv => mergeEntry (some v) bv

def overrideWith (a b : Fields) : Fields := mapEntries (ovStep b) a

/-- the entries of the first map whose keys the second map does not hold -/
def filterNotIn : Fields → Fields → Fields
  | .fnil, _ => .fnil
  | .fcons k v rest, a =>
    if a.hasKey k then rest.filterNotIn a else .fcons k v (rest.filterNotIn a)

end Fields

mutual
/-- a value every Go `interface{}` tree can be: nested maps have unique keys -/
def Val.wf : Val → Bool
  | .scalar _ => true
  | .arr es => es.wf
  | .vmap m => m.wf

def Elems.wf : Elems → Bool
  | .enil => true
  | .econs v rest => v.wf && rest.wf

def Fields.wf : Fields → Bool
  | .fnil => true
  | .fcons k v rest => !(rest.hasKey k) && v.wf && rest.wf
end

mutual
/-- one key is non-conflicting against the other side's value there:
the other side misses the key, or both sides hold mappings that are
recursively non-conflicting -/
def nonConflictAt : Option Val → Val → Bool
  | none, _ => true
  | some (.vmap bm), .vmap am => nonConflict am bm
  | some _, _ => false
termination_by o v => sizeOf v
decreasing_by
  all_goals simp_wf
  all_goals omega

/-- Non-conflict of two mappings, as in the claim: no key held by both
where one side is a mapping and the other is not, and no key held as a
non-mapping (scalar or sequence) by both; shared mapping keys must be
non-conflicting recursively. -/
def nonConflict : Fields → Fields → Bool
  | .fnil, _ => true
  | .fcons k v rest, b => nonConflictAt (b.lookup k) v && nonConflict rest b
termination_by a b => sizeOf a
decreasing_by
  all_goals simp_wf
  all_goals omega
end

namespace Fields

@[simp] theorem mapEntries_fnil (f : String → Val → Val) :
    mapEntries f .fnil = .fnil := rfl

@[simp] theorem mapEntries_fcons (f : String → Val → Val) (k : String)
    (v : Val) (rest : Fields) :
    mapEntries f (.fcons k v rest) = .fcons k (f k v) (mapEntries f rest) := rfl

@[simp] theorem append_fnil (a : Fields) : a.append .fnil = a := by
  induction a using Fields.inductionOn with
  | fnil => rfl
  | fcons k v rest ih => simp [append, ih]

theorem append_assoc (a b c : Fields) :
    (a.append b).append c = a.append (b.append c) := by
  induction a using Fields.inductionOn with
  | fnil => rfl
  | fcons k v rest ih => simp [append, ih]

@[simp] theorem keys_append (a b : Fields) :
    (a.append b).keys = a.keys ++ b.keys := by
  induction a using Fields.inductionOn with
  | fnil => rfl
  | fcons k v rest ih => simp [append, keys, ih]

@[simp] theorem keys_mapEntries (f : String → Val → Val) (a : Fields) :
    (mapEntries f a).keys = a.keys := by
  induction a using Fields.inductionOn with
  | fnil => rfl
  | fcons k v rest ih => simp [keys, ih]

theorem mapEntries_append (f : String → Val → Val) (a b : Fields) :
    mapEntries f (a.append b) = (mapEntries f a).append (mapEntries f b) := by
  induction a using Fields.inductionOn with
  | fnil => rfl
  | fcons k v rest ih => simp [append, ih]

theorem overrideWith_append (x y c : Fields) :
    (x.append y).overrideWith c =
      (x.overrideWith c).append (y.overrideWith c) :=
  mapEntries_append (ovStep c) x y

theorem mapEntries_comp (f g : String → Val → Val) (a : Fields) :
    mapEntries f (mapEntries g a) = mapEntries (fun k v => f k (g k v)) a := by
  induction a using Fields.inductionOn with
  | fnil => rfl
  | fcons k v rest ih => simp [ih]

theorem mapEntries_congrOn {f g : String → Val → Val} {a : Fields}
    (h : ∀ k ∈ a.keys, ∀ v, f k v = g k v) :
    mapEntries f a = mapEntries g a := by
  induction a using Fields.inductionOn with
  | fnil => rfl
  | fcons k v rest ih =>
    have hk : k ∈ (Fields.fcons k v rest).keys := by simp [keys]
    rw [mapEntries_fcons, mapEntries_fcons, h k hk v,
      ih fun k' hk' v' => h k' (by simp [keys, hk']) v']

theorem mapEntries_congrLookup {f g : String → Val → Val} {a : Fields}
    (ha : a.NodupKeys) (h : ∀ k v, a.lookup k = some v → f k v = g k v) :
    mapEntries f a = mapEntries g a := by
  induction a using Fields.inductionOn with
  | fnil => rfl
  | fcons k v rest ih =>
    have hnd : k ∉ rest.keys ∧ rest.NodupKeys := by
      simpa [NodupKeys, keys, List.nodup_cons] using ha
    rw [mapEntries_fcons, mapEntries_fcons, h k v (by simp [lookup])]
    rw [ih hnd.2]
    intro k' v' hk'
    apply h
    have hne : ¬ (k = k') := by
      intro hh
      subst hh
      exact hnd.1 (mem_keys_of_lookup hk')
    simp [lookup, hne, hk']

@[simp] theorem filterNotIn_fnil (a : Fields) : filterNotIn .fnil a = .fnil := rfl

theorem filterNotIn_congrOn {c a a2 : Fields}
    (h : ∀ k ∈ c.keys, a.hasKey k = a2.hasKey k) :
    c.filterNotIn a = c.filterNotIn a2 := by
  induction c using Fields.inductionOn with
  | fnil => rfl
  | fcons k v rest ih =>
    have hk : a.hasKey k = a2.hasKey k := h k (by simp [keys])
    have ihr := ih fun k' hk' => h k' (by simp [keys, hk'])
    by_cases hh : a2.hasKey k = true
    · simp [filterNotIn, hk, hh, ihr]
    · simp [filterNotIn, hk, hh, ihr]

theorem filterNotIn_append (x y a : Fields) :
    (x.append y).filterNotIn a = (x.filterNotIn a).append (y.filterNotIn a) := by
  induction x using Fields.inductionOn with
  | fnil => rfl
  | fcons k v rest ih =>
    by_cases hh : a.hasKey k = true
    · simp [append, filterNotIn, hh, ih]
    · simp [append, filterNotIn, hh, ih]

theorem keys_filterNotIn (c a : Fields) :
    (c.filterNotIn a).keys = c.keys.filter (fun k => !a.hasKey k) := by
  induction c using Fields.inductionOn with
  | fnil => rfl
  | fcons k v rest ih =>
    by_cases hh : a.hasKey k = true
    · simp [filterNotIn, hh, keys, ih]
    · simp [filterNotIn, hh, keys, ih]

theorem exists_lookup_of_mem_keys {a : Fields} {k : String} (h : k ∈ a.keys) :
    ∃ v, a.lookup k = some v := by
  induction a using Fields.inductionOn with
  | fnil => simp [keys] at h
  | fcons k0 v0 rest ih =>
    by_cases h0 : k0 = k
    · subst h0
      exact ⟨v0, by simp [lookup]⟩
    · have hmem : k ∈ rest.keys := by
        rcases List.mem_cons.mp h with h1 | h1
        · exact absurd h1.symm h0
        · exact h1
      rcases ih hmem with ⟨v, hv⟩
      exact ⟨v, by simp [lookup, h0, hv]⟩

theorem hasKey_false_iff (a : Fields) (k : String) :
    a.hasKey k = false ↔ k ∉ a.keys := by
  constructor
  · intro h hk
    rcases exists_lookup_of_mem_keys hk with ⟨v, hv⟩
    simp [hasKey, hv] at h
  · intro h
    simp [hasKey, lookup_eq_none_of_not_mem_keys h]

theorem hasKey_true_iff (a : Fields) (k : String) :
    a.hasKey k = true ↔ k ∈ a.keys := by
  constructor
  · intro h
    by_contra hk
    rw [(hasKey_false_iff a k).mpr hk] at h
    exact Bool.false_ne_true h
  · intro h
    rcases exists_lookup_of_mem_keys h with ⟨v, hv⟩
    simp [hasKey, hv]

theorem keys_setKey (a : Fields) (k : String) (v : Val) :
    (a.setKey k v).keys = if a.hasKey k then a.keys else a.keys ++ [k] := by
  induction a using Fields.inductionOn with
  | fnil => simp [setKey, keys, hasKey, lookup]
  | fcons k0 v0 rest ih =>
    by_cases h0 : k0 = k
    · subst h0
      simp [setKey, keys, hasKey, lookup]
    · have hh : (Fields.fcons k0 v0 rest).hasKey k = rest.hasKey k := by
        simp [hasKey, lookup, h0]
      rw [hh]
      by_cases hk : rest.hasKey k = true
      · simp [setKey, h0, keys, ih, hk]
      · have hk' : rest.hasKey k = false := by simpa using hk
        simp [setKey, h0, keys, ih, hk']

theorem setKey_eq_append {a : Fields} {k : String} (v : Val)
    (h : a.hasKey k = false) :
    a.setKey k v = a.append (.fcons k v .fnil) := by
  induction a using Fields.inductionOn with
  | fnil => simp [setKey, append]
  | fcons k0 v0 rest ih =>
    have h0 : ¬ (k0 = k) := by
      intro hh
      subst hh
      simp [hasKey, lookup] at h
    have hr : rest.hasKey k = false := by
      simp [hasKey, lookup, h0] at h
      simp [hasKey, h]
    simp [setKey, h0, append, ih hr]

theorem NodupKeys_setKey {a : Fields} (k : String) (v : Val)
    (ha : a.NodupKeys) : (a.setKey k v).NodupKeys := by
  rw [NodupKeys, keys_setKey]
  by_cases h : a.hasKey k = true
  · simpa [h] using ha
  · simp at h
    have hk : k ∉ a.keys := (hasKey_false_iff a k).mp h
    simp [h, NodupKeys]
    exact List.Nodup.append ha (List.nodup_singleton k)
      (by simpa [List.disjoint_singleton] using hk)

theorem hasKey_setKey_of_hasKey {a : Fields} {k : String} (v : Val)
    (h : a.hasKey k = true) (k' : String) :
    (a.setKey k v).hasKey k' = a.hasKey k' := by
  by_cases hk : k = k'
  · subst hk
    rw [h]
    simp [hasKey, lookup_setKey]
  · simp [hasKey, lookup_setKey, hk]

theorem overrideWith_fnil (a : Fields) : a.overrideWith .fnil = a := by
  rw [overrideWith]
  induction a using Fields.inductionOn with
  | fnil => rfl
  | fcons k v rest ih => simp [ovStep, lookup, ih]

end Fields

@[simp] theorem mergeEntry_none (v : Val) : mergeEntry none v = v := by
  cases v <;> rfl

theorem sizeOf_lookup_lt {a : Fields} {k : String} {v : Val}
    (h : a.lookup k = some v) : sizeOf v < sizeOf a := by
  induction a using Fields.inductionOn with
  | fnil => simp [Fields.lookup] at h
  | fcons k0 v0 rest ih =>
    by_cases h0 : k0 = k
    · subst h0
      simp [Fields.lookup] at h
      subst h
      simp
      omega
    · simp [Fields.lookup, h0] at h
      have := ih h
      simp
      omega

theorem sizeOf_lookup_vmap_lt {a : Fields} {k : String} {m : Fields}
    (h : a.lookup k = some (.vmap m)) : sizeOf m < sizeOf a := by
  have h1 := sizeOf_lookup_lt h
  have h2 : sizeOf (Val.vmap m) = 1 + sizeOf m := by simp
  omega

/-! well-formedness facts -/

theorem Fields.wf_parts {k : String} {v : Val} {rest : Fields}
    (h : (Fields.fcons k v rest).wf = true) :
    rest.hasKey k = false ∧ v.wf = true ∧ rest.wf = true := by
  rw [Fields.wf, Bool.and_eq_true, Bool.and_eq_true] at h
  refine ⟨?_, h.1.2, h.2⟩
  have := h.1.1
  cases hh : rest.hasKey k
  · rfl
  · rw [hh] at this
    simp at this

theorem Fields.wf_nodup {a : Fields} (h : a.wf = true) : a.NodupKeys := by
  induction a using Fields.inductionOn with
  | fnil => simp [NodupKeys, keys]
  | fcons k v rest ih =>
    rcases Fields.wf_parts h with ⟨h1, _, h3⟩
    have hk : k ∉ rest.keys := (hasKey_false_iff rest k).mp h1
    simp [NodupKeys, keys, List.nodup_cons, hk]
    exact ih h3

theorem Fields.wf_lookup {a : Fields} {k : String} {v : Val}
    (ha : a.wf = true) (h : a.lookup k = some v) : v.wf = true := by
  induction a using Fields.inductionOn with
  | fnil => simp [Fields.lookup] at h
  | fcons k0 v0 rest ih =>
    rcases Fields.wf_parts ha with ⟨_, h2, h3⟩
    by_cases h0 : k0 = k
    · subst h0
      simp [Fields.lookup] at h
      subst h
      exact h2
    · simp [Fields.lookup, h0] at h
      exact ih h3 h

theorem Fields.wf_lookup_vmap {a : Fields} {k : String} {m : Fields}
    (ha : a.wf = true) (h : a.lookup k = some (.vmap m)) : m.wf = true := by
  have := Fields.wf_lookup ha h
  rwa [Val.wf] at this

/-! non-conflict facts -/

@[simp] theorem nonConflict_fnil (b : Fields) : nonConflict .fnil b = true := by
  simp [nonConflict]

theorem nonConflict_cons_tail {k : String} {v : Val} {rest b : Fields}
    (h : nonConflict (.fcons k v rest) b = true) :
    nonConflict rest b = true := by
  rw [nonConflict, Bool.and_eq_true] at h
  exact h.2

theorem nonConflict_cons_head {k : String} {v vb : Val} {rest b : Fields}
    (h : nonConflict (.fcons k v rest) b = true)
    (hb : b.lookup k = some vb) :
    ∃ am bm, v = .vmap am ∧ vb = .vmap bm ∧ nonConflict am bm = true := by
  rw [nonConflict, Bool.and_eq_true] at h
  have h1 := h.1
  rw [hb] at h1
  cases vb with
  | scalar s => simp [nonConflictAt] at h1
  | arr es => simp [nonConflictAt] at h1
  | vmap bm =>
    cases v with
    | scalar s => simp [nonConflictAt] at h1
    | arr es => simp [nonConflictAt] at h1
    | vmap am => exact ⟨am, bm, rfl, rfl, by rwa [nonConflictAt] at h1⟩

theorem nonConflict_lookup {a b : Fields} {k : String} {va vb : Val}
    (h : nonConflict a b = true)
    (ha : a.lookup k = some va) (hb : b.lookup k = some vb) :
    ∃ am bm, va = .vmap am ∧ vb = .vmap bm ∧ nonConflict am bm = true := by
  induction a using Fields.inductionOn with
  | fnil => simp [Fields.lookup] at ha
  | fcons k0 v0 rest ih =>
    by_cases h0 : k0 = k
    · subst h0
      simp [Fields.lookup] at ha
      subst ha
      exact nonConflict_cons_head h hb
    · simp [Fields.lookup, h0] at ha
      exact ih (nonConflict_cons_tail h) ha

/-! the closed form of `mergeMaps`: override the earlier entries in
place, then append the later map's genuinely new entries -/

theorem Fields.lookup_append (a b : Fields) (k : String) :
    (a.append b).lookup k =
      match a.lookup k with
      | some v => some v
      | none => b.lookup k := by
  induction a using Fields.inductionOn with
  | fnil => simp [Fields.append, Fields.lookup]
  | fcons k0 v0 rest ih =>
    by_cases h0 : k0 = k
    · subst h0
      simp [Fields.append, Fields.lookup]
    · simp [Fields.append, Fields.lookup, h0, ih]

theorem Fields.ovStep_eq_of_lookup_eq {b b2 : Fields} {k : String}
    (h : b.lookup k = b2.lookup k) (v : Val) :
    Fields.ovStep b k v = Fields.ovStep b2 k v := by
  rw [Fields.ovStep, Fields.ovStep, h]

theorem overrideWith_setKey_resolved {a rest : Fields} {k : String}
    {v v0 : Val} (ha : a.NodupKeys) (h0 : a.lookup k = some v0)
    (hr : rest.lookup k = none) :
    (a.setKey k (mergeEntry (some v0) v)).overrideWith rest =
      a.overrideWith (.fcons k v rest) := by
  induction a using Fields.inductionOn with
  | fnil => simp [Fields.lookup] at h0
  | fcons k0 u0 arest ih =>
    have hnd : k0 ∉ arest.keys ∧ arest.NodupKeys := by
      simpa [Fields.NodupKeys, Fields.keys, List.nodup_cons] using ha
    by_cases hk0 : k0 = k
    · subst hk0
      simp [Fields.lookup] at h0
      subst h0
      have hset : (Fields.fcons k0 u0 arest).setKey k0 (mergeEntry (some u0) v) =
          Fields.fcons k0 (mergeEntry (some u0) v) arest := by
        simp [Fields.setKey]
      rw [hset, Fields.overrideWith, Fields.overrideWith,
        Fields.mapEntries_fcons, Fields.mapEntries_fcons]
      have hhead : Fields.ovStep rest k0 (mergeEntry (some u0) v) =
          Fields.ovStep (.fcons k0 v rest) k0 u0 := by
        rw [Fields.ovStep, Fields.ovStep, hr]
        simp [Fields.lookup]
      rw [hhead]
      have htail : Fields.mapEntries (Fields.ovStep rest) arest =
          Fields.mapEntries (Fields.ovStep (.fcons k0 v rest)) arest := by
        apply Fields.mapEntries_congrOn
        intro k' hk' v'
        apply Fields.ovStep_eq_of_lookup_eq
        have hne : ¬ (k0 = k') := by
          intro hh
          exact hnd.1 (hh ▸ hk')
        simp [Fields.lookup, hne]
      rw [htail]
    · have hset : (Fields.fcons k0 u0 arest).setKey k (mergeEntry (some v0) v) =
          Fields.fcons k0 u0 (arest.setKey k (mergeEntry (some v0) v)) := by
        simp [Fields.setKey, hk0]
      have h0' : arest.lookup k = some v0 := by
        simpa [Fields.lookup, hk0] using h0
      rw [hset, Fields.overrideWith, Fields.overrideWith,
        Fields.mapEntries_fcons, Fields.mapEntries_fcons]
      have hhead : Fields.ovStep rest k0 u0 =
          Fields.ovStep (.fcons k v rest) k0 u0 := by
        apply Fields.ovStep_eq_of_lookup_eq
        have hne : ¬ (k = k0) := fun hh => hk0 hh.symm
        simp [Fields.lookup, hne]
      rw [hhead]
      have := ih hnd.2 h0'
      rw [Fields.overrideWith, Fields.overrideWith] at this
      rw [this]

theorem mergeMaps_closed (a b : Fields) (ha : a.NodupKeys)
    (hb : b.NodupKeys) :
    mergeMaps a b = (a.overrideWith b).append (b.filterNotIn a) := by
  induction b using Fields.inductionOn generalizing a with
  | fnil => simp [Fields.overrideWith_fnil, Fields.filterNotIn, Fields.append_fnil]
  | fcons k v rest ih =>
    have hbnd : k ∉ rest.keys ∧ rest.NodupKeys := by
      simpa [Fields.NodupKeys, Fields.keys, List.nodup_cons] using hb
    have hr : rest.lookup k = none :=
      Fields.lookup_eq_none_of_not_mem_keys hbnd.1
    rw [mergeMaps_fcons]
    by_cases hk : a.hasKey k = true
    · rcases (Fields.hasKey_iff_lookup a k).mp hk with ⟨v0, h0⟩
      rw [h0]
      have ha' : (a.setKey k (mergeEntry (some v0) v)).NodupKeys :=
        Fields.NodupKeys_setKey _ _ ha
      rw [ih _ ha' hbnd.2]
      rw [overrideWith_setKey_resolved ha h0 hr]
      have hfilter : rest.filterNotIn (a.setKey k (mergeEntry (some v0) v)) =
          rest.filterNotIn a := by
        apply Fields.filterNotIn_congrOn
        intro k' _
        exact Fields.hasKey_setKey_of_hasKey _ hk k'
      rw [hfilter, Fields.filterNotIn]
      simp [hk]
    · have hk' : a.hasKey k = false := by simpa using hk
      have h0 : a.lookup k = none := by
        simp [Fields.hasKey] at hk'
        simpa [Option.isSome_iff_exists] using hk'
      rw [h0, mergeEntry_none]
      have ha' : (a.setKey k v).NodupKeys := Fields.NodupKeys_setKey _ _ ha
      rw [ih _ ha' hbnd.2]
      rw [Fields.setKey_eq_append v hk']
      rw [Fields.overrideWith, Fields.mapEntries_append]
      have hsingle : Fields.mapEntries (Fields.ovStep rest) (.fcons k v .fnil) =
          .fcons k v .fnil := by
        simp [Fields.ovStep, hr]
      rw [hsingle]
      have hfilter : rest.filterNotIn (a.append (.fcons k v .fnil)) =
          rest.filterNotIn a := by
        apply Fields.filterNotIn_congrOn
        intro k' hk'mem
        have hne : ¬ (k = k') := by
          intro hh
          exact hbnd.1 (hh ▸ hk'mem)
        rw [Fields.hasKey, Fields.hasKey, Fields.lookup_append]
        cases hka : a.lookup k' with
        | some w => simp
        | none => simp [Fields.lookup, hne]
      rw [hfilter]
      have hunfold : (Fields.fcons k v rest).filterNotIn a =
          .fcons k v (rest.filterNotIn a) := by
        rw [Fields.filterNotIn, if_neg (by simp [hk'])]
      rw [hunfold]
      have hov : Fields.mapEntries (Fields.ovStep (.fcons k v rest)) a =
          Fields.mapEntries (Fields.ovStep rest) a := by
        apply Fields.mapEntries_congrOn
        intro k' hk'mem v'
        apply Fields.ovStep_eq_of_lookup_eq
        have hne : ¬ (k = k') := by
          intro hh
          subst hh
          exact (Fields.hasKey_false_iff a k).mp hk' hk'mem
        simp [Fields.lookup, hne]
      rw [Fields.overrideWith, hov, Fields.append_assoc]
      rfl

@[simp] theorem mergeEntry_vmap_vmap (am vm : Fields) :
    mergeEntry (some (.vmap am)) (.vmap vm) = .vmap (mergeMaps am vm) := rfl

@[simp] theorem mergeEntry_scalar (av : Option Val) (s : String) :
    mergeEntry av (.scalar s) = .scalar s := by
  cases av with
  | none => rfl
  | some w => cases w <;> rfl

@[simp] theorem mergeEntry_arr (av : Option Val) (es : Elems) :
    mergeEntry av (.arr es) = .arr es := by
  cases av with
  | none => rfl
  | some w => cases w <;> rfl

@[simp] theorem mergeEntry_some_scalar (s : String) (v : Val) :
    mergeEntry (some (.scalar s)) v = v := by
  cases v <;> rfl

@[simp] theorem mergeEntry_some_arr (es : Elems) (v : Val) :
    mergeEntry (some (.arr es)) v = v := by
  cases v <;> rfl

theorem Fields.one_le_sizeOf (a : Fields) : 1 ≤ sizeOf a := by
  cases a <;> simp <;> omega

theorem NodupKeys_mergeMaps {a b : Fields} (ha : a.NodupKeys)
    (hb : b.NodupKeys) : (mergeMaps a b).NodupKeys := by
  rw [mergeMaps_closed a b ha hb]
  rw [Fields.NodupKeys, Fields.keys_append, Fields.overrideWith,
    Fields.keys_mapEntries, Fields.keys_filterNotIn]
  rw [List.nodup_append]
  refine ⟨ha, hb.filter _, ?_⟩
  intro x hx hx'
  rcases List.of_mem_filter hx' with hcond
  have : x ∉ a.keys := (Fields.hasKey_false_iff a x).mp (by simpa using hcond)
  exact this hx

/-- filtering commutes with the entrywise override -/
theorem filterNotIn_overrideWith (b c a : Fields) :
    (b.overrideWith c).filterNotIn a = (b.filterNotIn a).overrideWith c := by
  induction b using Fields.inductionOn with
  | fnil => rfl
  | fcons k v rest ih =>
    by_cases hk : a.hasKey k = true
    · simp only [Fields.overrideWith, Fields.mapEntries_fcons,
        Fields.filterNotIn, if_pos hk] at ih ⊢
      exact ih
    · simp only [Fields.overrideWith, Fields.mapEntries_fcons,
        Fields.filterNotIn, if_neg hk] at ih ⊢
      rw [ih]

/-- filtering against a merged map is filtering against both layers -/
theorem filterNotIn_mergeMaps (c : Fields) {a b : Fields}
    (ha : a.NodupKeys) (hb : b.NodupKeys) :
    c.filterNotIn (mergeMaps a b) = (c.filterNotIn b).filterNotIn a := by
  induction c using Fields.inductionOn with
  | fnil => rfl
  | fcons k v rest ih =>
    have hmk : (mergeMaps a b).hasKey k = (a.hasKey k || b.hasKey k) :=
      hasKey_mergeMaps a b hb k
    by_cases hbk : b.hasKey k = true
    · rw [Fields.filterNotIn, if_pos (by simp [hmk, hbk]),
        Fields.filterNotIn, if_pos hbk, ih]
    · have hbk' : b.hasKey k = false := by simpa using hbk
      by_cases hak : a.hasKey k = true
      · rw [Fields.filterNotIn, if_pos (by simp [hmk, hak]),
          Fields.filterNotIn, if_neg hbk, Fields.filterNotIn, if_pos hak, ih]
      · have hak' : a.hasKey k = false := by simpa using hak
        rw [Fields.filterNotIn, if_neg (by simp [hmk, hak', hbk']),
          Fields.filterNotIn, if_neg hbk, Fields.filterNotIn, if_neg hak, ih]

theorem mergeMaps_assoc_bounded :
    ∀ (n : Nat) (a b c : Fields), sizeOf a + sizeOf b + sizeOf c ≤ n →
    a.wf = true → b.wf = true → c.wf = true →
    nonConflict a b = true → nonConflict a c = true → nonConflict b c = true →
    mergeMaps a (mergeMaps b c) = mergeMaps (mergeMaps a b) c := by
  intro n
  induction n with
  | zero =>
    intro a b c hsize
    have := Fields.one_le_sizeOf a
    have := Fields.one_le_sizeOf b
    have := Fields.one_le_sizeOf c
    omega
  | succ n ih =>
    intro a b c hsize ha hb hc hab hac hbc
    have hA : a.NodupKeys := Fields.wf_nodup ha
    have hB : b.NodupKeys := Fields.wf_nodup hb
    have hC : c.NodupKeys := Fields.wf_nodup hc
    have hBCN : (mergeMaps b c).NodupKeys := NodupKeys_mergeMaps hB hC
    have hABN : (mergeMaps a b).NodupKeys := NodupKeys_mergeMaps hA hB
    -- the override segment: a's entries see (b then c) as they see the
    -- merged (b,c) layer, with the recursion at shared mapping keys
    have hS1 : a.overrideWith (mergeMaps b c) =
        (a.overrideWith b).overrideWith c := by
      rw [Fields.overrideWith, Fields.overrideWith, Fields.overrideWith,
        Fields.mapEntries_comp]
      apply Fields.mapEntries_congrLookup hA
      intro k v hak
      simp only [Fields.ovStep]
      rw [lookup_mergeMaps b c hC k]
      cases hCk : c.lookup k with
      | none =>
        cases hBk : b.lookup k <;> simp
      | some vc =>
        cases hBk : b.lookup k with
        | none => simp
        | some vb =>
          show mergeEntry (some v) (mergeEntry (some vb) vc) =
            mergeEntry (some (mergeEntry (some v) vb)) vc
          rcases nonConflict_lookup hab hak hBk with ⟨va, bm, hva, hvb, hnab⟩
          rcases nonConflict_lookup hac hak hCk with ⟨va', cm, hva', hvc, hnac⟩
          rcases nonConflict_lookup hbc hBk hCk with ⟨bm', cm', hvb', hvc', hnbc⟩
          rw [hva] at hva'
          rw [hvb] at hvb'
          rw [hvc] at hvc'
          have e1 : va = va' := by injection hva'
          have e2 : bm = bm' := by injection hvb'
          have e3 : cm = cm' := by injection hvc'
          have hnac2 : nonConflict va cm = true := by rw [e1]; exact hnac
          have hnbc2 : nonConflict bm cm = true := by rw [e2, e3]; exact hnbc
          rw [hva, hvb, hvc]
          simp only [mergeEntry_vmap_vmap]
          have hak2 : a.lookup k = some (.vmap va) := hva ▸ hak
          have hBk2 : b.lookup k = some (.vmap bm) := hvb ▸ hBk
          have hCk2 : c.lookup k = some (.vmap cm) := hvc ▸ hCk
          have s1 : sizeOf va < sizeOf a := sizeOf_lookup_vmap_lt hak2
          have s2 : sizeOf bm < sizeOf b := sizeOf_lookup_vmap_lt hBk2
          have s3 : sizeOf cm < sizeOf c := sizeOf_lookup_vmap_lt hCk2
          have hw1 : va.wf = true := Fields.wf_lookup_vmap ha hak2
          have hw2 : bm.wf = true := Fields.wf_lookup_vmap hb hBk2
          have hw3 : cm.wf = true := Fields.wf_lookup_vmap hc hCk2
          rw [ih va bm cm (by omega) hw1 hw2 hw3 hnab hnac2 hnbc2]
    calc mergeMaps a (mergeMaps b c)
        = (a.overrideWith (mergeMaps b c)).append
            ((mergeMaps b c).filterNotIn a) := mergeMaps_closed _ _ hA hBCN
      _ = ((a.overrideWith b).overrideWith c).append
            ((mergeMaps b c).filterNotIn a) := by rw [hS1]
      _ = ((a.overrideWith b).overrideWith c).append
            ((((b.overrideWith c).append (c.filterNotIn b))).filterNotIn a) := by
            rw [mergeMaps_closed b c hB hC]
      _ = ((a.overrideWith b).overrideWith c).append
            (((b.overrideWith c).filterNotIn a).append
              ((c.filterNotIn b).filterNotIn a)) := by
            rw [Fields.filterNotIn_append]
      _ = ((a.overrideWith b).overrideWith c).append
            (((b.filterNotIn a).overrideWith c).append
              (c.filterNotIn (mergeMaps a b))) := by
            rw [filterNotIn_overrideWith, filterNotIn_mergeMaps c hA hB]
      _ = (((a.overrideWith b).overrideWith c).append
            ((b.filterNotIn a).overrideWith c)).append
              (c.filterNotIn (mergeMaps a b)) := by
            rw [Fields.append_assoc]
      _ = (((a.overrideWith b).append (b.filterNotIn a)).overrideWith c).append
            (c.filterNotIn (mergeMaps a b)) := by
            rw [Fields.overrideWith_append]
      _ = ((mergeMaps a b).overrideWith c).append
            (c.filterNotIn (mergeMaps a b)) := by
            rw [← mergeMaps_closed a b hA hB]
      _ = mergeMaps (mergeMaps a b) c := (mergeMaps_closed _ _ hABN hC).symm

/-- C9: over well-formed mappings (unique keys at every level, as in any
Go map), `mergeMaps` is associative whenever the three layers are
pairwise non-conflicting (every shared key holds mappings on both sides,
recursively — no mapping/non-mapping clash and no scalar overlap); and at
any key where the two layers do clash (the later layer holds the key and
the sides are not both mappings), the later layer's value prevails in the
deterministic result. -/
theorem mergeMaps_assoc_nonConflict :
    (∀ a b c : Fields, a.wf = true → b.wf = true → c.wf = true →
      nonConflict a b = true → nonConflict a c = true → nonConflict b c = true →
      mergeMaps a (mergeMaps b c) = mergeMaps (mergeMaps a b) c) ∧
    (∀ (a b : Fields) (k : String) (v w : Val), b.NodupKeys →
      b.lookup k = some v → a.lookup k = some w →
      (¬ ∃ am vm, w = Val.vmap am ∧ v = Val.vmap vm) →
      (mergeMaps a b).lookup k = some v) := by
  constructor
  · intro a b c ha hb hc hab hac hbc
    exact mergeMaps_assoc_bounded (sizeOf a + sizeOf b + sizeOf c) a b c
      le_rfl ha hb hc hab hac hbc
  · intro a b k v w hb hbk hak hclash
    rw [lookup_mergeMaps a b hb k, hbk, hak]
    cases w with
    | scalar s => simp
    | arr es => simp
    | vmap am =>
      cases v with
      | scalar s => simp
      | arr es => simp
      | vmap vm => exact absurd ⟨am, vm, rfl, rfl⟩ hclash

/-- witness inputs for the associativity claim -/
def mapAW : Fields := .fcons "x" (.vmap (.fcons "p" (.scalar "1") .fnil)) .fnil
def mapBW : Fields := .fcons "y" (.scalar "2") .fnil
def mapCW : Fields := .fcons "x" (.vmap (.fcons "q" (.scalar "3") .fnil)) .fnil

theorem mergeMaps_assoc_nonConflict_witness :
    (mapAW.wf = true ∧ mapBW.wf = true ∧ mapCW.wf = true ∧
      nonConflict mapAW mapBW = true ∧ nonConflict mapAW mapCW = true ∧
      nonConflict mapBW mapCW = true ∧
      mergeMaps mapAW (mergeMaps mapBW mapCW) =
        mergeMaps (mergeMaps mapAW mapBW) mapCW) ∧
    ((Fields.fcons "k" (.scalar "new") .fnil).NodupKeys ∧
      (Fields.fcons "k" (.scalar "new") .fnil).lookup "k" = some (.scalar "new") ∧
      (Fields.fcons "k" (.scalar "old") .fnil).lookup "k" = some (.scalar "old") ∧
      (mergeMaps (.fcons "k" (.scalar "old") .fnil)
        (.fcons "k" (.scalar "new") .fnil)).lookup "k" = some (.scalar "new")) := by
  have hwa : mapAW.wf = true := by
    simp [mapAW, Fields.wf, Val.wf, Fields.hasKey, Fields.lookup]
  have hwb : mapBW.wf = true := by
    simp [mapBW, Fields.wf, Val.wf, Fields.hasKey, Fields.lookup]
  have hwc : mapCW.wf = true := by
    simp [mapCW, Fields.wf, Val.wf, Fields.hasKey, Fields.lookup]
  have hab : nonConflict mapAW mapBW = true := by
    simp [mapAW, mapBW, nonConflict, nonConflictAt, Fields.lookup]
  have hac : nonConflict mapAW mapCW = true := by
    simp [mapAW, mapCW, nonConflict, nonConflictAt, Fields.lookup]
  have hbc : nonConflict mapBW mapCW = true := by
    simp [mapBW, mapCW, nonConflict, nonConflictAt, Fields.lookup]
  have hnd : (Fields.fcons "k" (.scalar "new") .fnil).NodupKeys := by
    simp [Fields.NodupKeys, Fields.keys]
  refine ⟨⟨hwa, hwb, hwc, hab, hac, hbc, ?_⟩, hnd, rfl, rfl, ?_⟩
  · exact mergeMaps_assoc_nonConflict.1 mapAW mapBW mapCW hwa hwb hwc hab hac hbc
  · exact mergeMaps_assoc_nonConflict.2 _ _ "k" (.scalar "new") (.scalar "old")
      hnd rfl rfl (by simp)

/-! ## SHA-256 (crypto/sha256 as used by `shaOf` in patch.go)

A concrete executable SHA-256 over byte lists, 32-bit words carried as
`Nat` reduced mod `2^32`. -/

def m32 (x : Nat) : Nat := x % 4294967296

def rotr32 (n x : Nat) : Nat := m32 ((x >>> n) ||| (x <<< (32 - n)))

def sha256K : List Nat :=
  [1116352408, 1899447441, 3049323471, 3921009573, 961987163,
   1508970993, 2453635748, 2870763221, 3624381080, 310598401,
   607225278, 1426881987, 1925078388, 2162078206, 2614888103,
   3248222580, 3835390401, 4022224774, 264347078, 604807628,
   770255983, 1249150122, 1555081692, 1996064986, 2554220882,
   2821834349, 2952996808, 3210313671, 3336571891, 3584528711,
   113926993, 338241895, 666307205, 773529912, 1294757372,
   1396182291, 1695183700, 1986661051, 2177026350, 2456956037,
   2730485921, 2820302411, 3259730800, 3345764771, 3516065817,
   3600352804, 4094571909, 275423344, 430227734, 506948616,
   659060556, 883997877, 958139571, 1322822218, 1537002063,
   1747873779, 1955562222, 2024104815, 2227730452, 2361852424,
   2428436474, 2756734187, 3204031479, 3329325298]

def sha256H0 : List Nat :=
  [1779033703, 3144134277, 1013904242, 2773480762,
   1359893119, 2600822924, 528734635, 1541459225]

/-- big-endian byte expansion, fixed width -/
def bytesBE : Nat → Nat → List Nat
  | 0, _ => []
  | n + 1, x => bytesBE n (x / 256) ++ [x % 256]

def padMessage (msg : List Nat) : List Nat :=
  let z := (55 + 64 - msg.length % 64) % 64
  msg ++ [0x80] ++ List.replicate z 0 ++ bytesBE 8 (msg.length * 8)

def toWords : List Nat → List Nat
  | b0 :: b1 :: b2 :: b3 :: rest =>
    (((b0 * 256 + b1) * 256 + b2) * 256 + b3) :: toWords rest
  | _ => []

def toBlocks : List Nat → List (List Nat)
  | [] => []
  | w :: rest => (w :: rest).take 16 :: toBlocks (rest.drop 15)
termination_by l => l.length
decreasing_by
  simp_wf
  have := List.length_drop 15 rest
  omega

def extendWords : List Nat → Nat → List Nat
  | ws, 0 => ws
  | ws, n + 1 =>
    let i := ws.length
    let w15 := ws.getD (i - 15) 0
    let w2 := ws.getD (i - 2) 0
    let w7 := ws.getD (i - 7) 0
    let w16 := ws.getD (i - 16) 0
    let s0 := (rotr32 7 w15) ^^^ (rotr32 18 w15) ^^^ (w15 >>> 3)
    let s1 := (rotr32 17 w2) ^^^ (rotr32 19 w2) ^^^ (w2 >>> 10)
    extendWords (ws ++ [m32 (w16 + s0 + w7 + s1)]) n

def sha256Round (st : List Nat) (kw : Nat × Nat) : List Nat :=
  match st with
  | [a, b, c, d, e, f, g, h] =>
    let s1 := (rotr32 6 e) ^^^ (rotr32 11 e) ^^^ (rotr32 25 e)
    let ch := (e &&& f) ^^^ ((e ^^^ 0xffffffff) &&& g)
    let t1 := m32 (h + s1 + ch + kw.2 + kw.1)
    let s0 := (rotr32 2 a) ^^^ (rotr32 13 a) ^^^ (rotr32 22 a)
    let mj := (a &&& b) ^^^ (a &&& c) ^^^ (b &&& c)
    let t2 := m32 (s0 + mj)
    [m32 (t1 + t2), a, b, c, m32 (d + t1), e, f, g]
  | st => st

def compressBlock (hs : List Nat) (block : List Nat) : List Nat :=
  let ws := extendWords block 48
  let final := (ws.zip sha256K).foldl sha256Round hs
  List.zipWith (fun x y => m32 (x + y)) hs final

def sha256 (msg : List Nat) : List Nat :=
  let hs := (toBlocks (toWords (padMessage msg))).foldl compressBlock sha256H0
  hs.flatMap (bytesBE 4)

def hexDigit (n : Nat) : Char :=
  if n < 10 then Char.ofNat (48 + n) else Char.ofNat (87 + n)

/-- lowercase hex of a byte list, as Go's `fmt.Sprintf("%x", ...)` prints it -/
def hexOfBytes (bs : List Nat) : String :=
  String.join (bs.map fun b => String.mk [hexDigit (b / 16), hexDigit (b % 16)])

/-- UTF-8 bytes of one scalar value -/
def utf8Char (c : Char) : List Nat :=
  let n := c.toNat
  if n < 0x80 then [n]
  else if n < 0x800 then [0xc0 + n / 64, 0x80 + n % 64]
  else if n < 0x10000 then
    [0xe0 + n / 4096, 0x80 + (n / 64) % 64, 0x80 + n % 64]
  else
    [0xf0 + n / 262144, 0x80 + (n / 4096) % 64, 0x80 + (n / 64) % 64, 0x80 + n % 64]

def utf8Bytes (s : String) : List Nat := s.toList.flatMap utf8Char

/-! ## Patches (pkg/controller/cluster/release/patch.go)

`ktypes.Patch` from sigs.k8s.io/kustomize, restricted to the fields the
spec's wire format names (`path`, `patch`, `target` with the kustomize
selector fields); Go's `encoding/json` marshaling of these structs is
embedded concretely (struct field order, `omitempty`, string escaping
with the HTML-safe escapes Go applies by default). -/

structure Selector where
  group : String
  version : String
  kind : String
  name : String
  namespaceS : String
  annotationSelector : String
  labelSelector : String
deriving DecidableEq, Repr

structure KPatch where
  path : String
  patch : String
  target : Option Selector
deriving DecidableEq, Repr

def jsonEscapeChar (c : Char) : String :=
  if c = '\\' then "\\\\"
  else if c = '"' then "\\\""
  else if c = '\n' then "\\n"
  else if c = '\t' then "\\t"
  else if c = '\r' then "\\r"
  else if c = '<' then "\\u003c"
  else if c = '>' then "\\u003e"
  else if c = '&' then "\\u0026"
  else String.singleton c

def jsonString (s : String) : String :=
  "\"" ++ String.join (s.toList.map jsonEscapeChar) ++ "\""

def jsonOfSelector (t : Selector) : String :=
  let fs :=
    (if t.group = "" then [] else ["\"group\":" ++ jsonString t.group]) ++
    (if t.version = "" then [] else ["\"version\":" ++ jsonString t.version]) ++
    (if t.kind = "" then [] else ["\"kind\":" ++ jsonString t.kind]) ++
    (if t.name = "" then [] else ["\"name\":" ++ jsonString t.name]) ++
    (if t.namespaceS = "" then [] else ["\"namespace\":" ++ jsonString t.namespaceS]) ++
    (if t.annotationSelector = "" then []
     else ["\"annotationSelector\":" ++ jsonString t.annotationSelector]) ++
    (if t.labelSelector = "" then []
     else ["\"labelSelector\":" ++ jsonString t.labelSelector])
  "\x7b" ++ String.intercalate "," fs ++ "\x7d"

def jsonOfPatch (p : KPatch) : String :=
  let fs :=
    (if p.path = "" then [] else ["\"path\":" ++ jsonString p.path]) ++
    (if p.patch = "" then [] else ["\"patch\":" ++ jsonString p.patch]) ++
    (match p.target with
     | none => []
     | some t => ["\"target\":" ++ jsonOfSelector t])
  "\x7b" ++ String.intercalate "," fs ++ "\x7d"

/-- `json.Marshal` of the ordered patch sequence -/
def jsonOfPatches (ps : List KPatch) : String :=
  "[" ++ String.intercalate "," (ps.map jsonOfPatch) ++ "]"

/-- Embeds `patchSha.shaOf` (patch.go): empty string for an empty
sequence, else the lowercase hex SHA-256 of the JSON serialization.
(The Go error path is `json.Marshal` failing, which cannot happen for
these struct values, so the embedded function is total.) -/
def shaOf (patches : List KPatch) : String :=
  if patches = [] then ""
  else hexOfBytes (sha256 (utf8Bytes (jsonOfPatches patches)))

/-- Embeds `patchGet.getFromSpec` (patch.go): resolve each source with
default key `patch.yaml`, skip empty bodies, unmarshal the `patches:`
document (the YAML parse is the `pPatch` parameter) and concatenate in
declaration order. -/
def getPatchesFromSpec (kube : Kube)
    (pPatch : String → Except GoError (List KPatch)) :
    List ValueFromSource → Except GoError (List KPatch)
  | [] => .ok []
  | vf :: rest =>
    match getDataValueFromSource kube vf keyDefaultPatchFrom with
    | .error e => .error (.wrap errFailedToGetValueFromSource e)
    | .ok s =>
      if s = "" then getPatchesFromSpec kube pPatch rest
      else
        match pPatch s with
        | .error e => .error (.wrap errFailedToUnmarshallPatch e)
        | .ok ps =>
          match getPatchesFromSpec kube pPatch rest with
          | .error e => .error e
          | .ok base => .ok (ps ++ base)

/-- ASCII case folding of one character -/
def foldChar (c : Char) : Char :=
  if 'A' ≤ c ∧ c ≤ 'Z' then Char.ofNat (c.toNat + 32) else c

/-- `strings.EqualFold` as the hex-digest comparison uses it (exact for
the ASCII alphabet digests are drawn from) -/
def eqFold (s t : String) : Bool :=
  s.toList.map foldChar = t.toList.map foldChar

/-! ## Release status model (apis/release/v1beta1/types.go + helm release) -/

inductive RelStatus where
  | unknown
  | deployed
  | uninstalled
  | superseded
  | failedRel
  | uninstalling
  | pendingInstall
  | pendingUpgrade
  | pendingRollback
deriving DecidableEq, Repr

structure ReleaseObservation where
  state : RelStatus
  releaseDescription : String
  revision : Int
deriving DecidableEq, Repr

structure ReleaseStatus where
  atProvider : ReleaseObservation
  patchesSha : String
  failed : Int
  synced : Bool
deriving DecidableEq, Repr

/-- Embeds `patch.hasUpdates` (patch.go): fetch the patches, hash them,
report drift when the digest differs case-insensitively from the stored
`status.patchesSha`. -/
def hasUpdates (kube : Kube)
    (pPatch : String → Except GoError (List KPatch))
    (vals : List ValueFromSource) (s : ReleaseStatus) : Except GoError Bool :=
  match getPatchesFromSpec kube pPatch vals with
  | .error e => .error e
  | .ok patches => .ok (!eqFold (shaOf patches) s.patchesSha)

/-! ## Observed Helm release model (helm.sh/helm/v3/pkg/release, read-only) -/

structure RelInfo where
  status : RelStatus
  description : String
deriving DecidableEq, Repr

structure ChartMetadata where
  name : String
  version : String
deriving DecidableEq, Repr

structure HelmChart where
  metadata : Option ChartMetadata
deriving DecidableEq, Repr

structure HelmRelease where
  name : String
  namespaceR : String
  info : Option RelInfo
  chart : Option HelmChart
  config : Option Fields
  version : Int
deriving DecidableEq, Repr

structure ChartSpec where
  repository : String
  name : String
  version : String
  url : String
deriving DecidableEq, Repr

structure ReleaseParameters where
  chart : ChartSpec
  namespaceP : String
  valuesSpec : ValuesSpec
  patchesFrom : List ValueFromSource

/-! ## Drift detection -/

def errReleaseInfoNilInObservedRelease : String := "release info is nil in observed helm release"
def errChartNilInObservedRelease : String := "chart field is nil in observed helm release"
def errChartMetaNilInObservedRelease : String := "chart metadata field is nil in observed helm release"
def errFailedToComposeValues : String := "failed to compose values"
def errFailedToLoadPatches : String := "failed to load patches"

/-- the devel version marker (auth_provider.go constant `devel`) -/
def devel : String := ">0.0.0-0"

/-- Embeds `isPending` (auth_provider.go / helmrelease.go). -/
def isPending (s : RelStatus) : Bool :=
  s = RelStatus.pendingInstall ∨ s = RelStatus.pendingUpgrade ∨
    s = RelStatus.pendingRollback

mutual
/-- equality of two value trees as mappings: what byte-comparing their
canonical (sorted-key) YAML serializations, or `reflect.DeepEqual` on
the parsed maps, decides -/
def ceqVal : Val → Val → Bool
  | .scalar s, .scalar t => s = t
  | .arr es, .arr fs => ceqElems es fs
  | .vmap m, .vmap n => ceqFields m n
  | _, _ => false
termination_by v w => sizeOf v + 1
decreasing_by
  all_goals simp_wf
  all_goals omega

def ceqElems : Elems → Elems → Bool
  | .enil, .enil => true
  | .econs v vs, .econs w ws => ceqVal v w && ceqElems vs ws
  | _, _ => false
termination_by es fs => sizeOf es + 1
decreasing_by
  all_goals simp_wf
  all_goals omega

/-- every entry of the first map has an equal value in the second -/
def ceqSub : Fields → Fields → Bool
  | .fnil, _ => true
  | .fcons k v rest, b =>
    (match b.lookup k with
     | some w => ceqVal v w
     | none => false) && ceqSub rest b
termination_by a b => sizeOf a
decreasing_by
  all_goals simp_wf
  all_goals have h9 := Fields.one_le_sizeOf rest
  all_goals omega

def ceqFields (a b : Fields) : Bool :=
  ceqSub a b && b.keys.all (fun k => a.hasKey k)
termination_by sizeOf a + 1
decreasing_by
  all_goals simp_wf
  all_goals omega
end

/-- Embeds `isUpToDate` of pkg/controller/release/auth_provider.go (the
v1beta1 release controller): nil checks, pending check, chart name and
version gate with the `>0.0.0-0` devel exception, canonical-YAML value
comparison (nil observed config treated as the empty mapping), then the
patch drift check. -/
def isUpToDateBeta (kube : Kube)
    (pYaml : String → Except GoError Fields)
    (pSet : String → String → Fields → Except GoError Fields)
    (pPatch : String → Except GoError (List KPatch))
    (params : ReleaseParameters) (observed : HelmRelease)
    (s : ReleaseStatus) : Except GoError Bool :=
  match observed.info with
  | none => .error (.msg errReleaseInfoNilInObservedRelease)
  | some info =>
    if isPending info.status then .ok false
    else
      match observed.chart with
      | none => .error (.msg errChartNilInObservedRelease)
      | some oc =>
        match oc.metadata with
        | none => .error (.msg errChartMetaNilInObservedRelease)
        | some ocm =>
          if params.chart.name ≠ ocm.name then .ok false
          else if params.chart.version ≠ ocm.version ∧ params.chart.version ≠ devel then .ok false
          else
            match composeValuesFromSpec kube pYaml pSet params.valuesSpec with
            | .error e => .error (.wrap errFailedToComposeValues e)
            | .ok desired =>
              let observedConfig := (observed.config).getD Fields.fnil
              if ¬ ceqFields desired observedConfig then .ok false
              else
                match hasUpdates kube pPatch params.patchesFrom s with
                | .error e => .error (.wrap errFailedToLoadPatches e)
                | .ok changed => if changed then .ok false else .ok true

/-- Embeds `isUpToDate` of pkg/controller/helmrelease.go (the legacy
v1alpha1 release controller): same shape but no devel-version exception,
and the value comparison is `reflect.DeepEqual(desiredConfig,
observed.Config)`, under which a nil observed config never equals the
(always non-nil) composed map. -/
def isUpToDateAlpha (kube : Kube)
    (pYaml : String → Except GoError Fields)
    (pSet : String → String → Fields → Except GoError Fields)
    (pPatch : String → Except GoError (List KPatch))
    (params : ReleaseParameters) (observed : HelmRelease)
    (s : ReleaseStatus) : Except GoError Bool :=
  match observed.info with
  | none => .error (.msg errReleaseInfoNilInObservedRelease)
  | some info =>
    if isPending info.status then .ok false
    else
      match observed.chart with
      | none => .error (.msg errChartNilInObservedRelease)
      | some oc =>
        match oc.metadata with
        | none => .error (.msg errChartMetaNilInObservedRelease)
        | some ocm =>
          if params.chart.name ≠ ocm.name then .ok false
          else if params.chart.version ≠ ocm.version then .ok false
          else
            match composeValuesFromSpec kube pYaml pSet params.valuesSpec with
            | .error e => .error (.wrap errFailedToComposeValues e)
            | .ok desired =>
              let deepEq : Bool :=
                match observed.config with
                | none => false
                | some c => ceqFields desired c
              if deepEq = false then .ok false
              else
                match hasUpdates kube pPatch params.patchesFrom s with
                | .error e => .error (.wrap errFailedToLoadPatches e)
                | .ok changed => if changed then .ok false else .ok true

/-! ## Management policies (cluster-scoped controller) -/

inductive MgmtAction where
  | observe
  | create
  | update
  | delete
  | lateInitialize
  | all
deriving DecidableEq, Repr, BEq

/-- the management-policy set excludes the Update action (crossplane
semantics: an empty policy list means full management, and the `*`
action covers Update) -/
def mgmtPoliciesExcludeUpdate (ps : List MgmtAction) : Bool :=
  !ps.isEmpty && !ps.contains MgmtAction.update && !ps.contains MgmtAction.all

/-- Modelled from the spec: the cluster-scoped release controller's
`isUpToDate` (pkg/controller/cluster/release/observe.go) is not under
src/ — only its test observe_test.go is.  Per the spec (§4.5.5): after
the nil and pending checks, "If management policy excludes `Update`:
⇒ `true`, no error (treat as up-to-date; updates are disabled)"; the
remaining steps are those of the v1beta1 `isUpToDate` above. -/
def isUpToDateCluster (kube : Kube)
    (pYaml : String → Except GoError Fields)
    (pSet : String → String → Fields → Except GoError Fields)
    (pPatch : String → Except GoError (List KPatch))
    (policies : List MgmtAction)
    (params : ReleaseParameters) (observed : HelmRelease)
    (s : ReleaseStatus) : Except GoError Bool :=
  match observed.info with
  | none => .error (.msg errReleaseInfoNilInObservedRelease)
  | some info =>
    if isPending info.status then .ok false
    else
      match observed.chart with
      | none => .error (.msg errChartNilInObservedRelease)
      | some oc =>
        match oc.metadata with
        | none => .error (.msg errChartMetaNilInObservedRelease)
        | some ocm =>
          if mgmtPoliciesExcludeUpdate policies then .ok true
          else if params.chart.name ≠ ocm.name then .ok false
          else if params.chart.version ≠ ocm.version ∧ params.chart.version ≠ devel then .ok false
          else
            match composeValuesFromSpec kube pYaml pSet params.valuesSpec with
            | .error e => .error (.wrap errFailedToComposeValues e)
            | .ok desired =>
              let observedConfig := (observed.config).getD Fields.fnil
              if ¬ ceqFields desired observedConfig then .ok false
              else
                match hasUpdates kube pPatch params.patchesFrom s with
                | .error e => .error (.wrap errFailedToLoadPatches e)
                | .ok changed => if changed then .ok false else .ok true

/-! ## Claim C2 (corrected: the devel exception exists only in the
v1beta1 `isUpToDate`; the legacy v1alpha1 one treats any version
difference as drift) -/

/-- C2 (amended): in the v1beta1 drift detection (auth_provider.go
`isUpToDate`), with non-nil info, chart and chart metadata and equal
chart names: a version difference with a non-devel desired version
yields false; with the devel version `>0.0.0-0` a version mismatch alone
never yields false — a false verdict implies a pending state, a value
difference, or a patch-set change. -/
theorem isUpToDate_version_gate (kube : Kube)
    (pYaml : String → Except GoError Fields)
    (pSet : String → String → Fields → Except GoError Fields)
    (pPatch : String → Except GoError (List KPatch))
    (params : ReleaseParameters) (observed : HelmRelease) (s : ReleaseStatus)
    (info : RelInfo) (oc : HelmChart) (ocm : ChartMetadata)
    (hinfo : observed.info = some info) (hchart : observed.chart = some oc)
    (hmeta : oc.metadata = some ocm) (hname : params.chart.name = ocm.name) :
    (params.chart.version ≠ ocm.version → params.chart.version ≠ devel →
      isUpToDateBeta kube pYaml pSet pPatch params observed s = .ok false) ∧
    (params.chart.version = devel →
      isUpToDateBeta kube pYaml pSet pPatch params observed s = .ok false →
      isPending info.status = true ∨
      (∃ d, composeValuesFromSpec kube pYaml pSet params.valuesSpec = .ok d ∧
        ceqFields d ((observed.config).getD Fields.fnil) = false) ∨
      hasUpdates kube pPatch params.patchesFrom s = .ok true) := by
  constructor
  · intro hv1 hv2
    cases hp : isPending info.status with
    | true => simp [isUpToDateBeta, hinfo, hp]
    | false => simp [isUpToDateBeta, hinfo, hchart, hmeta, hp, hname, hv1, hv2]
  · intro hdev hres
    cases hp : isPending info.status with
    | true => exact Or.inl rfl
    | false =>
      simp only [isUpToDateBeta, hinfo, hchart, hmeta, hp, Bool.false_eq_true,
        if_false] at hres
      rw [if_neg (by simp [hname])] at hres
      rw [if_neg (fun h => h.2 hdev)] at hres
      cases hcomp : composeValuesFromSpec kube pYaml pSet params.valuesSpec with
      | error e => rw [hcomp] at hres; exact absurd hres (by simp)
      | ok d =>
        rw [hcomp] at hres
        simp only at hres
        cases hceq : ceqFields d ((observed.config).getD Fields.fnil) with
        | false => exact Or.inr (Or.inl ⟨d, rfl, hceq⟩)
        | true =>
          rw [if_neg (by simp [hceq])] at hres
          cases hupd : hasUpdates kube pPatch params.patchesFrom s with
          | error e => rw [hupd] at hres; exact absurd hres (by simp)
          | ok changed =>
            rw [hupd] at hres
            cases changed with
            | true => exact Or.inr (Or.inr rfl)
            | false => simp at hres

/-- trivial stand-ins for the external parsers at the counterexample
inputs (no values, no patches) -/
def pPatchW : String → Except GoError (List KPatch) := fun _ => .ok []

def paramsDevelW : ReleaseParameters :=
  { chart := { repository := "", name := "wordpress", version := ">0.0.0-0", url := "" }
    namespaceP := "ns"
    valuesSpec := { values := "", valuesFrom := [], set := [] }
    patchesFrom := [] }

def observedDevelW : HelmRelease :=
  { name := "r", namespaceR := "ns"
    info := some { status := .deployed, description := "" }
    chart := some { metadata := some { name := "wordpress", version := "1.4.2" } }
    config := some .fnil
    version := 2 }

def statusDevelW : ReleaseStatus :=
  { atProvider := { state := .deployed, releaseDescription := "", revision := 2 }
    patchesSha := "", failed := 0, synced := true }

/-- C2 counterexample: the same devel-pinned input (desired version
`>0.0.0-0`, observed `1.4.2`, equal names, equal values, unchanged
patches) makes the legacy helmrelease.go `isUpToDate` — one of the two
functions the claim is about — return false on the version mismatch
alone, while the v1beta1 one returns true. -/
theorem isUpToDate_devel_counterexample :
    isUpToDateAlpha kubeW pYamlW pSetW pPatchW
      paramsDevelW observedDevelW statusDevelW = .ok false ∧
    isUpToDateBeta kubeW pYamlW pSetW pPatchW
      paramsDevelW observedDevelW statusDevelW = .ok true := by
  constructor
  · rfl
  · rw [isUpToDateBeta]
    simp only [observedDevelW]
    rw [if_neg (by simp [isPending])]
    rw [if_neg (by simp [paramsDevelW])]
    rw [if_neg (by simp [paramsDevelW, devel])]
    have hcomp : composeValuesFromSpec kubeW pYamlW pSetW paramsDevelW.valuesSpec =
        .ok Fields.fnil := by
      simp [composeValuesFromSpec, composeLoop1, composeLoop2, paramsDevelW, pYamlW]
    have hceq : ceqFields Fields.fnil Fields.fnil = true := by
      simp [ceqFields, ceqSub, Fields.keys]
    have hupd : hasUpdates kubeW pPatchW paramsDevelW.patchesFrom statusDevelW =
        .ok false := by
      rw [hasUpdates]
      have hg : getPatchesFromSpec kubeW pPatchW paramsDevelW.patchesFrom = .ok [] := rfl
      rw [hg]
      simp [shaOf, eqFold, statusDevelW]
    rw [hcomp, hupd]
    simp [hceq]

theorem isUpToDate_version_gate_witness :
    (observedDevelW.info = some { status := .deployed, description := "" } ∧
      observedDevelW.chart =
        some { metadata := some { name := "wordpress", version := "1.4.2" } } ∧
      paramsDevelW.chart.name = "wordpress" ∧
      paramsDevelW.chart.version ≠ "1.4.2" ∧
      paramsDevelW.chart.version = devel) ∧
    ((isUpToDateBeta kubeW pYamlW pSetW pPatchW
        { paramsDevelW with chart := { paramsDevelW.chart with version := "9.9.9" } }
        observedDevelW statusDevelW = .ok false) ∧
      (isUpToDateBeta kubeW pYamlW pSetW pPatchW paramsDevelW observedDevelW
          statusDevelW = .ok false →
        isPending RelStatus.deployed = true ∨
        (∃ d, composeValuesFromSpec kubeW pYamlW pSetW paramsDevelW.valuesSpec = .ok d ∧
          ceqFields d ((observedDevelW.config).getD Fields.fnil) = false) ∨
        hasUpdates kubeW pPatchW paramsDevelW.patchesFrom statusDevelW = .ok true)) := by
  refine ⟨⟨rfl, rfl, rfl, by decide, rfl⟩, ?_, ?_⟩
  · exact (isUpToDate_version_gate kubeW pYamlW pSetW pPatchW
      { paramsDevelW with chart := { paramsDevelW.chart with version := "9.9.9" } }
      observedDevelW statusDevelW _ _ _ rfl rfl rfl rfl).1 (by decide) (by decide)
  · exact (isUpToDate_version_gate kubeW pYamlW pSetW pPatchW
      paramsDevelW observedDevelW statusDevelW _ _ _ rfl rfl rfl rfl).2 rfl

/-! ## Claim C7 (spec-modelled: the cluster observe.go is not under src/) -/

/-- C7: when the management policies exclude the Update action, the
cluster-scoped drift detection returns true with no error, whatever the
composed desired values and the observed config are. -/
theorem isUpToDateCluster_update_excluded (kube : Kube)
    (pYaml : String → Except GoError Fields)
    (pSet : String → String → Fields → Except GoError Fields)
    (pPatch : String → Except GoError (List KPatch))
    (policies : List MgmtAction)
    (params : ReleaseParameters) (observed : HelmRelease) (s : ReleaseStatus)
    (info : RelInfo) (oc : HelmChart) (ocm : ChartMetadata)
    (hinfo : observed.info = some info)
    (hpend : isPending info.status = false)
    (hchart : observed.chart = some oc) (hmeta : oc.metadata = some ocm)
    (hexcl : mgmtPoliciesExcludeUpdate policies = true) :
    isUpToDateCluster kube pYaml pSet pPatch policies params observed s =
      .ok true := by
  simp [isUpToDateCluster, hinfo, hpend, hchart, hmeta, hexcl]

/-- the desired values of the witness release differ from the observed
config (mirroring observe_test.go's ManagementPolicies cases) -/
def pYamlDiffW : String → Except GoError Fields := fun t =>
  if t = "keyA: valX" then .ok (.fcons "keyA" (.scalar "valX") .fnil) else .ok .fnil

def paramsDiffW : ReleaseParameters :=
  { chart := { repository := "", name := "wordpress", version := "1.4.2", url := "" }
    namespaceP := "ns"
    valuesSpec := { values := "keyA: valX", valuesFrom := [], set := [] }
    patchesFrom := [] }

def observedDiffW : HelmRelease :=
  { name := "r", namespaceR := "ns"
    info := some { status := .deployed, description := "" }
    chart := some { metadata := some { name := "wordpress", version := "1.4.2" } }
    config := some (.fcons "keyA" (.scalar "valB") .fnil)
    version := 2 }

theorem isUpToDateCluster_update_excluded_witness :
    (observedDiffW.info = some { status := .deployed, description := "" } ∧
      isPending RelStatus.deployed = false ∧
      mgmtPoliciesExcludeUpdate
        [MgmtAction.create, MgmtAction.delete, MgmtAction.observe] = true ∧
      composeValuesFromSpec kubeW pYamlDiffW pSetW paramsDiffW.valuesSpec =
        .ok (.fcons "keyA" (.scalar "valX") .fnil) ∧
      observedDiffW.config = some (.fcons "keyA" (.scalar "valB") .fnil)) ∧
    isUpToDateCluster kubeW pYamlDiffW pSetW pPatchW
      [MgmtAction.create, MgmtAction.delete, MgmtAction.observe]
      paramsDiffW observedDiffW statusDevelW = .ok true := by
  refine ⟨⟨rfl, by decide, by decide, ?_, rfl⟩, ?_⟩
  · simp [composeValuesFromSpec, composeLoop1, composeLoop2, paramsDiffW,
      pYamlDiffW, mergeMaps_fcons, Fields.setKey, Fields.lookup]
  · exact isUpToDateCluster_update_excluded kubeW pYamlDiffW pSetW pPatchW
      _ paramsDiffW observedDiffW statusDevelW _ _ _ rfl (by decide) rfl rfl (by decide)

/-! ## Claim C3 -/

/-- C3: `hasUpdates` returns true exactly when the digest of the
currently fetched patch sequence differs case-insensitively from the
stored `status.patchesSha`; consequently a changed patch digest makes
the drift detection report the release as not up to date. -/
theorem hasUpdates_detects_sha_change :
    (∀ (kube : Kube) (pPatch : String → Except GoError (List KPatch))
      (vals : List ValueFromSource) (s : ReleaseStatus) (ps : List KPatch),
      getPatchesFromSpec kube pPatch vals = .ok ps →
      (hasUpdates kube pPatch vals s = .ok true ↔
        eqFold (shaOf ps) s.patchesSha = false)) ∧
    (∀ (kube : Kube) pYaml pSet
      (pPatch : String → Except GoError (List KPatch))
      (params : ReleaseParameters) (observed : HelmRelease) (s : ReleaseStatus)
      (info : RelInfo) (oc : HelmChart) (ocm : ChartMetadata) (d : Fields),
      observed.info = some info → isPending info.status = false →
      observed.chart = some oc → oc.metadata = some ocm →
      params.chart.name = ocm.name → params.chart.version = ocm.version →
      composeValuesFromSpec kube pYaml pSet params.valuesSpec = .ok d →
      ceqFields d ((observed.config).getD Fields.fnil) = true →
      hasUpdates kube pPatch params.patchesFrom s = .ok true →
      isUpToDateBeta kube pYaml pSet pPatch params observed s = .ok false) := by
  constructor
  · intro kube pPatch vals s ps hget
    rw [hasUpdates, hget]
    constructor
    · intro h
      have := Except.ok.inj h
      simpa using this
    · intro h
      simp [h]
  · intro kube pYaml pSet pPatch params observed s info oc ocm d
      hinfo hpend hchart hmeta hname hver hcomp hceq hupd
    simp [isUpToDateBeta, hinfo, hpend, hchart, hmeta, hname, hver, hcomp,
      hceq, hupd]

def statusShaW : ReleaseStatus :=
  { atProvider := { state := .deployed, releaseDescription := "", revision := 2 }
    patchesSha := "deadbeef", failed := 0, synced := true }

theorem hasUpdates_detects_sha_change_witness :
    (getPatchesFromSpec kubeW pPatchW [] = .ok [] ∧
      eqFold (shaOf []) statusShaW.patchesSha = false ∧
      hasUpdates kubeW pPatchW [] statusShaW = .ok true) ∧
    (composeValuesFromSpec kubeW pYamlDiffW pSetW paramsDiffW.valuesSpec =
        .ok (.fcons "keyA" (.scalar "valX") .fnil) ∧
      hasUpdates kubeW pPatchW paramsDiffW.patchesFrom statusShaW = .ok true ∧
      isUpToDateBeta kubeW pYamlDiffW pSetW pPatchW paramsDiffW
        { observedDiffW with config := some (.fcons "keyA" (.scalar "valX") .fnil) }
        statusShaW = .ok false) := by
  have hget : getPatchesFromSpec kubeW pPatchW ([] : List ValueFromSource) = .ok [] := rfl
  have hefold : eqFold (shaOf []) statusShaW.patchesSha = false := by
    decide
  have hupd : hasUpdates kubeW pPatchW [] statusShaW = .ok true :=
    ((hasUpdates_detects_sha_change.1 kubeW pPatchW [] statusShaW [] hget).mpr hefold)
  have hcomp : composeValuesFromSpec kubeW pYamlDiffW pSetW paramsDiffW.valuesSpec =
      .ok (.fcons "keyA" (.scalar "valX") .fnil) := by
    simp [composeValuesFromSpec, composeLoop1, composeLoop2, paramsDiffW,
      pYamlDiffW, mergeMaps_fcons, Fields.setKey, Fields.lookup]
  have hceq : ceqFields (Fields.fcons "keyA" (.scalar "valX") .fnil)
      ((some (Fields.fcons "keyA" (.scalar "valX") .fnil)).getD Fields.fnil) = true := by
    simp [ceqFields, ceqSub, ceqVal, Fields.keys, Fields.lookup, Fields.hasKey]
  refine ⟨⟨hget, hefold, hupd⟩, hcomp, hupd, ?_⟩
  exact hasUpdates_detects_sha_change.2 kubeW pYamlDiffW pSetW pPatchW paramsDiffW
    { observedDiffW with config := some (.fcons "keyA" (.scalar "valX") .fnil) }
    statusShaW _ _ _ _ rfl (by decide) rfl rfl rfl rfl hcomp hceq hupd

/-! ## Claim C6 -/

/-- C6: `shaOf` returns the empty string on the empty patch sequence and
the lowercase hex SHA-256 of the JSON serialization of the ordered
sequence otherwise; the hex alphabet is lowercase; and the digest is a
function of the parsed patch sequence alone, so any two fetches that
parse to equal sequences (whatever the surrounding YAML text looked
like) hash identically. -/
theorem shaOf_canonical_json_sha256 :
    (shaOf [] = "") ∧
    (∀ ps : List KPatch, ps ≠ [] →
      shaOf ps = hexOfBytes (sha256 (utf8Bytes (jsonOfPatches ps)))) ∧
    (∀ n, n < 16 →
      ('0' ≤ hexDigit n ∧ hexDigit n ≤ '9') ∨
      ('a' ≤ hexDigit n ∧ hexDigit n ≤ 'f')) ∧
    (∀ (kube1 kube2 : Kube)
      (pP1 pP2 : String → Except GoError (List KPatch))
      (vals1 vals2 : List ValueFromSource) (ps qs : List KPatch),
      getPatchesFromSpec kube1 pP1 vals1 = .ok ps →
      getPatchesFromSpec kube2 pP2 vals2 = .ok qs →
      ps = qs → shaOf ps = shaOf qs) := by
  refine ⟨by simp [shaOf], ?_, by decide, ?_⟩
  · intro ps hne
    rw [shaOf, if_neg hne]
  · intro kube1 kube2 pP1 pP2 vals1 vals2 ps qs h1 h2 hpq
    rw [hpq]

/-- a concrete patch (the kustomize selector left empty except the kind) -/
def kpatchW : KPatch :=
  { path := "", patch := "op: add", target :=
      some { group := "", version := "", kind := "Deployment", name := ""
             namespaceS := "", annotationSelector := "", labelSelector := "" } }

/-- two control planes holding textually different YAML bodies that parse
to the same patch sequence -/
def kubeP1 : Kube where
  secrets := fun _ _ => .absent
  configmaps := fun ns n =>
    if ns = "ns" ∧ n = "cm" then .withData [("patch.yaml", "patches: [x]")]
    else .absent

def kubeP2 : Kube where
  secrets := fun _ _ => .absent
  configmaps := fun ns n =>
    if ns = "ns" ∧ n = "cm" then .withData [("patch.yaml", "patches:   [ x ]")]
    else .absent

def pPatchParseW : String → Except GoError (List KPatch) := fun t =>
  if t = "patches: [x]" ∨ t = "patches:   [ x ]" then .ok [kpatchW] else .ok []

def cmRefW : ValueFromSource :=
  { configMapKeyRef := some { nn := { namespaceN := "ns", name := "cm" }, key := "", optional := false }
    secretKeyRef := none }

theorem shaOf_canonical_json_sha256_witness :
    ([kpatchW] ≠ ([] : List KPatch) ∧
      shaOf [kpatchW] = hexOfBytes (sha256 (utf8Bytes (jsonOfPatches [kpatchW])))) ∧
    (getPatchesFromSpec kubeP1 pPatchParseW [cmRefW] = .ok [kpatchW] ∧
      getPatchesFromSpec kubeP2 pPatchParseW [cmRefW] = .ok [kpatchW] ∧
      shaOf [kpatchW] = shaOf [kpatchW]) := by
  have h1 : getPatchesFromSpec kubeP1 pPatchParseW [cmRefW] = .ok [kpatchW] := by
    simp [getPatchesFromSpec, getDataValueFromSource, getConfigMapData, kubeP1,
      cmRefW, dataLookup, keyDefaultPatchFrom, pPatchParseW]
  have h2 : getPatchesFromSpec kubeP2 pPatchParseW [cmRefW] = .ok [kpatchW] := by
    simp [getPatchesFromSpec, getDataValueFromSource, getConfigMapData, kubeP2,
      cmRefW, dataLookup, keyDefaultPatchFrom, pPatchParseW]
  refine ⟨⟨by decide, ?_⟩, h1, h2, ?_⟩
  · exact shaOf_canonical_json_sha256.2.1 [kpatchW] (by decide)
  · exact shaOf_canonical_json_sha256.2.2.2 kubeP1 kubeP2 pPatchParseW pPatchParseW
      [cmRefW] [cmRefW] [kpatchW] [kpatchW] h1 h2 rfl

/-! ## The release controller (unnamed part_002: Update, deploy)

Error constants and the rollback predicates. -/

def errNotRelease : String := "managed resource is not a Release custom resource"
def errLastReleaseIsNil : String := "last helm release is nil"
def errFailedToInstall : String := "failed to install release"
def errFailedToUpgrade : String := "failed to upgrade release"
def errFailedToGetRepoCreds : String := "failed to get user name and password from secret reference"
def errFailedToUpdatePatchSha : String := "failed to update patch sha"
def errFailedToSetName : String := "failed to update chart spec with the name from URL"
def errFailedToSetVersion : String := "failed to update chart spec with the latest version"

/-- the Release custom resource as Update/deploy read and write it -/
structure ReleaseCR where
  chart : ChartSpec
  rollbackRetriesLimit : Option Int
  status : ReleaseStatus
deriving DecidableEq, Repr

/-- Embeds `rollBackEnabled` (part_002): the retries limit pointer is set. -/
def rollBackEnabled (cr : ReleaseCR) : Bool :=
  cr.rollbackRetriesLimit.isSome

/-- Embeds `rollBackLimitReached` (part_002): `Status.Failed >=
*Spec.RollbackRetriesLimit`.  The Go code dereferences the pointer, so it
is only ever called behind `rollBackEnabled`; the `none` branch here is
unreachable in the guarded uses. -/
def rollBackLimitReached (cr : ReleaseCR) : Bool :=
  match cr.rollbackRetriesLimit with
  | some l => cr.status.failed ≥ l
  | none => false

/-- Embeds `shouldRollBack` (part_002). -/
def shouldRollBack (cr : ReleaseCR) : Bool :=
  rollBackEnabled cr &&
    ((cr.status.synced && cr.status.atProvider.state = RelStatus.failedRel) ||
      cr.status.atProvider.state = RelStatus.pendingInstall ||
      cr.status.atProvider.state = RelStatus.pendingUpgrade)

inductive HelmCall where
  | uninstall
  | rollback
  | upgrade
deriving DecidableEq, Repr

/-- Embeds `helmExternal.Update` (part_002), as the state change on the
CR plus which Helm operation it invokes: in the rollback branch, below
the limit, `failed` is incremented and exactly one of Uninstall (first
revision) or Rollback runs; at or above the limit nothing runs; outside
the rollback branch the deploy(Upgrade) path runs (its status effects
are the separate `deploy` below). -/
def updateStep (cr : ReleaseCR) : ReleaseCR × Option HelmCall :=
  if shouldRollBack cr then
    if ¬ rollBackLimitReached cr then
      let cr' := { cr with status := { cr.status with failed := cr.status.failed + 1 } }
      if cr.status.atProvider.revision = 1 then (cr', some .uninstall)
      else (cr', some .rollback)
    else (cr, none)
  else (cr, some .upgrade)

/-- repeated Update invocations while the observed state stays the same,
with the Helm calls performed -/
def updateTrace : ReleaseCR → Nat → ReleaseCR × List HelmCall
  | cr, 0 => (cr, [])
  | cr, n + 1 =>
    let s := updateStep cr
    let t := updateTrace s.1 n
    (t.1, (match s.2 with | some x => [x] | none => []) ++ t.2)

/-! ## The deploy path (part_002 `helmExternal.deploy`)

The fallible steps deploy performs, in source order, appear as an
environment of step outcomes; the chart metadata is what
`PullAndLoadChart` returned, the action outcome is Helm's release
pointer (`none` embeds a nil release with a nil error). -/

structure DeployEnv where
  composeR : Except GoError Fields
  credsR : Except GoError Unit
  patchesR : Except GoError (List KPatch)
  chartR : Except GoError ChartMetadata
  updNameR : Option GoError
  updVerR : Option GoError
  actionR : Except GoError (Option HelmRelease)

/-- Embeds `generateObservation` (part_002): the zero observation unless
the release carries info. -/
def generateObservation (rel : HelmRelease) : ReleaseObservation :=
  match rel.info with
  | some i =>
    { state := i.status, releaseDescription := i.description, revision := rel.version }
  | none => { state := .unknown, releaseDescription := "", revision := 0 }

/-- Embeds `helmExternal.deploy` (part_002): compose values, read repo
credentials, load patches, pull the chart, late-initialize the chart
name and version on the spec, run the action, and only after a non-nil
release came back without error rewrite `status.PatchesSha` and
`status.AtProvider`.  (`shaOf` is total here: its Go error path is a
`json.Marshal` failure that cannot occur for these values.) -/
def deploy (env : DeployEnv) (cr : ReleaseCR) : Option GoError × ReleaseCR :=
  match env.composeR with
  | .error e => (some (.wrap errFailedToComposeValues e), cr)
  | .ok _ =>
    match env.credsR with
    | .error e => (some (.wrap errFailedToGetRepoCreds e), cr)
    | .ok _ =>
      match env.patchesR with
      | .error e => (some (.wrap errFailedToLoadPatches e), cr)
      | .ok p =>
        match env.chartR with
        | .error e => (some e, cr)
        | .ok meta =>
          let nameEmpty := cr.chart.name = ""
          let cr1 :=
            if nameEmpty then { cr with chart := { cr.chart with name := meta.name } }
            else cr
          match (if nameEmpty then env.updNameR else none) with
          | some e => (some (.wrap errFailedToSetName e), cr1)
          | none =>
            let verEmpty := cr.chart.version = ""
            let cr2 :=
              if verEmpty then { cr1 with chart := { cr1.chart with version := meta.version } }
              else cr1
            match (if verEmpty then env.updVerR else none) with
            | some e => (some (.wrap errFailedToSetVersion e), cr2)
            | none =>
              match env.actionR with
              | .error e => (some e, cr2)
              | .ok none => (some (.msg errLastReleaseIsNil), cr2)
              | .ok (some rel) =>
                (none,
                  { cr2 with status :=
                    { cr2.status with
                      patchesSha := shaOf p
                      atProvider := generateObservation rel } })

/-! ## Claim C4 -/

/-- C4: with rollback enabled and a failing observed state, Update below
the limit increments `failed` and performs exactly one of Uninstall
(observed revision 1) or Rollback; at or above the limit it performs no
Helm call and changes nothing; iterating Update while the failure
persists keeps `failed ≤ limit` and performs at most `limit - failed`
rollback/uninstall attempts in total. -/
theorem update_rollback_retry_cap :
    (∀ cr : ReleaseCR, shouldRollBack cr = true →
      rollBackLimitReached cr = false →
      (updateStep cr).1.status.failed = cr.status.failed + 1 ∧
      ((updateStep cr).2 = some HelmCall.uninstall ↔
        cr.status.atProvider.revision = 1) ∧
      ((updateStep cr).2 = some HelmCall.uninstall ∨
        (updateStep cr).2 = some HelmCall.rollback)) ∧
    (∀ cr : ReleaseCR, shouldRollBack cr = true →
      rollBackLimitReached cr = true →
      updateStep cr = (cr, none)) ∧
    (∀ (cr : ReleaseCR) (l : Int) (n : Nat),
      cr.rollbackRetriesLimit = some l → shouldRollBack cr = true →
      cr.status.failed ≤ l →
      (updateTrace cr n).1.status.failed ≤ l ∧
      (updateTrace cr n).2.length = min n (l - cr.status.failed).toNat) := by
  refine ⟨?_, ?_, ?_⟩
  · intro cr h1 h2
    by_cases hrev : cr.status.atProvider.revision = 1 <;>
      simp [updateStep, h1, h2, hrev]
  · intro cr h1 h2
    simp [updateStep, h1, h2]
  · intro cr l n hL
    induction n generalizing cr with
    | zero =>
      intro hsrb hle
      simp [updateTrace, hle]
    | succ n ih =>
      intro hsrb hle
      by_cases hlim : rollBackLimitReached cr = true
      · have hge : l ≤ cr.status.failed := by
          rw [rollBackLimitReached, hL] at hlim
          simpa using hlim
        have hstep : updateStep cr = (cr, none) := by
          simp [updateStep, hsrb, hlim]
        have hrec := ih cr hL hsrb hle
        simp only [updateTrace, hstep]
        refine ⟨hrec.1, ?_⟩
        simp only [List.nil_append]
        rw [hrec.2]
        omega
      · have hlim' : rollBackLimitReached cr = false := by simpa using hlim
        have hlt : cr.status.failed < l := by
          rw [rollBackLimitReached, hL] at hlim'
          simpa using hlim'
        have hstep : ∃ call, updateStep cr =
            ({ cr with status := { cr.status with failed := cr.status.failed + 1 } },
              some call) := by
          by_cases hrev : cr.status.atProvider.revision = 1
          · exact ⟨.uninstall, by simp [updateStep, hsrb, hlim', hrev]⟩
          · exact ⟨.rollback, by simp [updateStep, hsrb, hlim', hrev]⟩
        rcases hstep with ⟨call, hstep⟩
        have hsrb' : shouldRollBack
            { cr with status := { cr.status with failed := cr.status.failed + 1 } } =
              true := by
          simpa [shouldRollBack, rollBackEnabled] using hsrb
        have hrec := ih
          { cr with status := { cr.status with failed := cr.status.failed + 1 } }
          hL hsrb' (by simp; omega)
        simp only [updateTrace, hstep]
        refine ⟨hrec.1, ?_⟩
        simp only [List.length_append, List.length_cons, List.length_nil]
        have h2 := hrec.2
        simp only at h2
        rw [h2]
        omega

def crRollbackW : ReleaseCR :=
  { chart := { repository := "", name := "wordpress", version := "1.0.0", url := "" }
    rollbackRetriesLimit := some 3
    status :=
      { atProvider := { state := .failedRel, releaseDescription := "", revision := 1 }
        patchesSha := "", failed := 0, synced := true } }

theorem update_rollback_retry_cap_witness :
    (shouldRollBack crRollbackW = true ∧
      rollBackLimitReached crRollbackW = false ∧
      (updateStep crRollbackW).1.status.failed = crRollbackW.status.failed + 1 ∧
      (updateStep crRollbackW).2 = some HelmCall.uninstall) ∧
    (crRollbackW.rollbackRetriesLimit = some 3 ∧
      crRollbackW.status.failed ≤ 3 ∧
      (updateTrace crRollbackW 5).1.status.failed ≤ 3 ∧
      (updateTrace crRollbackW 5).2.length = min 5 ((3 : Int) - 0).toNat) := by
  have h1 : shouldRollBack crRollbackW = true := by decide
  have h2 : rollBackLimitReached crRollbackW = false := by decide
  have hmain := (update_rollback_retry_cap.1 crRollbackW h1 h2)
  have htrace := update_rollback_retry_cap.2.2 crRollbackW 3 5 rfl h1 (by decide)
  exact ⟨⟨h1, h2, hmain.1, hmain.2.1.mpr rfl⟩, rfl, by decide, htrace.1, htrace.2⟩

/-! ## Claim C10 -/

/-- C10: the deploy path is atomic with respect to the release status:
any failure (of a preparatory step, of the action, or a nil release from
the action) leaves the whole status — in particular `patchesSha` and
`atProvider` — untouched; on success they are rewritten to the digest of
the patches just used and the observation of the returned release. -/
theorem deploy_status_atomic :
    (∀ (env : DeployEnv) (cr : ReleaseCR) (e : GoError),
      (deploy env cr).1 = some e →
      (deploy env cr).2.status = cr.status) ∧
    (∀ (env : DeployEnv) (cr : ReleaseCR),
      (deploy env cr).1 = none →
      ∃ p rel, env.patchesR = .ok p ∧ env.actionR = .ok (some rel) ∧
        (deploy env cr).2.status.patchesSha = shaOf p ∧
        (deploy env cr).2.status.atProvider = generateObservation rel ∧
        (deploy env cr).2.status.failed = cr.status.failed ∧
        (deploy env cr).2.status.synced = cr.status.synced) := by
  constructor
  · intro env cr e h
    cases hc : env.composeR with
    | error e1 => simp [deploy, hc]
    | ok cv =>
      cases hcr : env.credsR with
      | error e1 => simp [deploy, hc, hcr]
      | ok u =>
        cases hp : env.patchesR with
        | error e1 => simp [deploy, hc, hcr, hp]
        | ok p =>
          cases hch : env.chartR with
          | error e1 => simp [deploy, hc, hcr, hp, hch]
          | ok meta =>
            by_cases hne : cr.chart.name = ""
            all_goals by_cases hve : cr.chart.version = ""
            all_goals cases hun : env.updNameR
            all_goals cases huv : env.updVerR
            all_goals cases ha : env.actionR
            all_goals
              first
              | (rename_i relOpt
                 cases relOpt <;>
                   simp_all [deploy, hc, hcr, hp, hch, hne, hve, hun, huv, ha])
              | simp_all [deploy, hc, hcr, hp, hch, hne, hve, hun, huv, ha]
  · intro env cr h
    cases hc : env.composeR with
    | error e1 => simp [deploy, hc] at h
    | ok cv =>
      cases hcr : env.credsR with
      | error e1 => simp [deploy, hc, hcr] at h
      | ok u =>
        cases hp : env.patchesR with
        | error e1 => simp [deploy, hc, hcr, hp] at h
        | ok p =>
          cases hch : env.chartR with
          | error e1 => simp [deploy, hc, hcr, hp, hch] at h
          | ok meta =>
            refine ⟨p, ?_⟩
            by_cases hne : cr.chart.name = ""
            all_goals by_cases hve : cr.chart.version = ""
            all_goals cases hun : env.updNameR
            all_goals cases huv : env.updVerR
            all_goals cases ha : env.actionR with
              | error e1 => simp_all [deploy, hc, hcr, hp, hch, hne, hve, hun, huv, ha]
              | ok relOpt =>
                cases relOpt with
                | none => simp_all [deploy, hc, hcr, hp, hch, hne, hve, hun, huv, ha]
                | some rel =>
                  exact ⟨rel, rfl, rfl, by
                    simp_all [deploy, hc, hcr, hp, hch, hne, hve, hun, huv, ha]⟩

def deployEnvOkW : DeployEnv :=
  { composeR := .ok .fnil
    credsR := .ok ()
    patchesR := .ok [kpatchW]
    chartR := .ok { name := "wordpress", version := "1.0.0" }
    updNameR := none
    updVerR := none
    actionR := .ok (some observedDevelW) }

def deployEnvFailW : DeployEnv :=
  { deployEnvOkW with actionR := .error (.msg "upgrade failed") }

theorem deploy_status_atomic_witness :
    ((deploy deployEnvFailW crRollbackW).1 = some (.msg "upgrade failed") ∧
      (deploy deployEnvFailW crRollbackW).2.status = crRollbackW.status) ∧
    ((deploy deployEnvOkW crRollbackW).1 = none ∧
      ∃ p rel, deployEnvOkW.patchesR = .ok p ∧
        deployEnvOkW.actionR = .ok (some rel) ∧
        (deploy deployEnvOkW crRollbackW).2.status.patchesSha = shaOf p ∧
        (deploy deployEnvOkW crRollbackW).2.status.atProvider =
          generateObservation rel ∧
        (deploy deployEnvOkW crRollbackW).2.status.failed =
          crRollbackW.status.failed ∧
        (deploy deployEnvOkW crRollbackW).2.status.synced =
          crRollbackW.status.synced) := by
  have hfail : (deploy deployEnvFailW crRollbackW).1 = some (.msg "upgrade failed") := by
    simp [deploy, deployEnvFailW, deployEnvOkW, crRollbackW]
  have hok : (deploy deployEnvOkW crRollbackW).1 = none := by
    simp [deploy, deployEnvOkW, crRollbackW]
  exact ⟨⟨hfail, deploy_status_atomic.1 deployEnvFailW crRollbackW _ hfail⟩,
    hok, deploy_status_atomic.2 deployEnvOkW crRollbackW hok⟩

/-! ## Chart resolution (unnamed part_009: `client.PullAndLoadChart`)

The filesystem and the Helm pull/load actions appear as an environment:
the fresh temporary directory `ioutil.TempDir` creates, the artifacts a
pull into it produces, the cache directory's current contents, and
whether the pull or the load errors.  The embedded function returns the
loaded chart path together with the trace of filesystem effects. -/

def chartCache : String := "/tmp/charts"
def errFailedToCheckIfLocalChartExists : String := "failed to check if cached chart file exists"
def errFailedToPullChart : String := "failed to pull chart"
def errFailedToLoadChart : String := "failed to load chart"

/-- source format `expected 1 .tgz chart file, got [%s]`, applied -/
def errUnexpectedDirContent (names : String) : String :=
  "expected 1 .tgz chart file, got [" ++ names ++ "]"

/-- source format `url not prefixed with oci://, got [%s]`, applied -/
def errUnexpectedOCIUrl (u : String) : String :=
  "url not prefixed with oci://, got [" ++ u ++ "]"

def strStarts : List Char → List Char → Bool
  | [], _ => true
  | _, [] => false
  | a :: as, b :: bs => a = b && strStarts as bs

/-- `registry.IsOCI`: the reference uses the `oci://` scheme. -/
def isOCI (u : String) : Bool := strStarts "oci://".toList u.toList

def splitOnCh (c : Char) : List Char → List (List Char)
  | [] => [[]]
  | ch :: r =>
    let rest := splitOnCh c r
    if ch = c then [] :: rest
    else
      match rest with
      | s :: tail => (ch :: s) :: tail
      | [] => [[ch]]

def dropScheme : List Char → Option (List Char)
  | ':' :: '/' :: '/' :: rest => some rest
  | _ :: rest => dropScheme rest
  | [] => none

def keepFromSlash : List Char → List Char
  | [] => []
  | '/' :: r => '/' :: r
  | ch :: r => if ch = '/' then '/' :: r else keepFromSlash r

/-- the `Path` component `net/url.Parse` yields for the absolute URLs the
controller meets (scheme://host/path) -/
def urlPath (u : String) : String :=
  match dropScheme u.toList with
  | some rest => String.mk (keepFromSlash rest)
  | none => u

/-- `path.Base` for the slash-separated paths used here -/
def pathBase (p : String) : String :=
  let go : List Char → List Char → List Char :=
    fun cur l => l.foldl (fun cur ch => if ch = '/' then [] else cur ++ [ch]) cur
  let b := go [] p.toList
  if b.isEmpty then "." else String.mk b

/-- Embeds `resolveOCIChartVersion` (part_009): split the URL path on
`:`; a tag after the first colon is the version. -/
def resolveOCIChartVersion (u : String) : Except GoError (String × String) :=
  if ¬ isOCI u then .error (.msg (errUnexpectedOCIUrl u))
  else
    let p := urlPath u
    match splitOnCh ':' p.toList with
    | p0 :: v :: _ => .ok (String.mk p0, String.mk v)
    | _ => .ok (p, "")

/-- Embeds `resolveChartFilePath` (part_009): `"{name}-{version}.tgz"`
under the cache directory. -/
def resolveChartFilePath (name version : String) : String :=
  chartCache ++ "/" ++ name ++ "-" ++ version ++ ".tgz"

inductive FSEvent where
  /-- a chart pull with the given destination directory -/
  | pullTo : String → FSEvent
  /-- `os.Rename src dst` -/
  | renameF : String → String → FSEvent
  /-- `loader.Load path` -/
  | loadF : String → FSEvent
deriving DecidableEq, Repr

structure ChartFS where
  tmpDirName : String
  tmpProduced : List String
  cacheFiles : List String
  pullFails : Bool
  loadFails : Bool

/-- Embeds `pullLatestChartVersion` (part_009): pull into the fresh
temporary directory, require exactly one produced artifact, rename it
into the stable cache path. -/
def pullLatestChartVersion (env : ChartFS) : Except GoError (String × List FSEvent) :=
  if env.pullFails then .error (.wrap errFailedToPullChart (.msg "pull"))
  else
    match env.tmpProduced with
    | [f] =>
      .ok (chartCache ++ "/" ++ f,
        [.pullTo env.tmpDirName,
         .renameF (env.tmpDirName ++ "/" ++ f) (chartCache ++ "/" ++ f)])
    | files => .error (.msg (errUnexpectedDirContent (String.intercalate "," files)))

/-- Embeds `client.PullAndLoadChart` (part_009): the four-way switch on
URL and version, then pull-if-absent against the cache, then load. -/
def PullAndLoadChart (env : ChartFS) (spec : ChartSpec) :
    Except GoError (String × List FSEvent) :=
  let sel : Except GoError (String × List FSEvent × List String) :=
    if spec.url = "" ∧ (spec.version = "" ∨ spec.version = devel) then
      match pullLatestChartVersion env with
      | .error e => .error e
      | .ok pe => .ok (pe.1, pe.2, env.cacheFiles ++ [pe.1])
    else if isOCI spec.url then
      match resolveOCIChartVersion spec.url with
      | .error e => .error e
      | .ok pv =>
        if pv.2 = "" then
          match pullLatestChartVersion env with
          | .error e => .error e
          | .ok pe => .ok (pe.1, pe.2, env.cacheFiles ++ [pe.1])
        else .ok (resolveChartFilePath (pathBase pv.1) pv.2, [], env.cacheFiles)
    else if spec.url ≠ "" then
      .ok (chartCache ++ "/" ++ pathBase (urlPath spec.url), [], env.cacheFiles)
    else
      .ok (resolveChartFilePath spec.name spec.version, [], env.cacheFiles)
  match sel with
  | .error e => .error e
  | .ok sel2 =>
    let path := sel2.1
    let ev := sel2.2.1
    let present := sel2.2.2
    let postPull : Except GoError (List FSEvent) :=
      if path ∈ present then .ok ev
      else if env.pullFails then .error (.wrap errFailedToPullChart (.msg "pull"))
      else .ok (ev ++ [.pullTo chartCache])
    match postPull with
    | .error e => .error e
    | .ok ev2 =>
      if env.loadFails then .error (.wrap errFailedToLoadChart (.msg "load"))
      else .ok (path, ev2 ++ [.loadF path])

/-! ## Claim C8 (corrected: the temp-pull rule requires an empty URL) -/

def chartFSX : ChartFS :=
  { tmpDirName := "/tmp/charts/tmp123", tmpProduced := ["a.tgz", "b.tgz"]
    cacheFiles := [], pullFails := false, loadFails := false }

def chartSpecUrlX : ChartSpec :=
  { repository := "", name := "", version := "", url := "https://example.com/foo.tgz" }

/-- C8 counterexample: a chart spec whose version is empty but whose URL
is set takes the URL-basename cache path — no temporary directory, no
single-artifact requirement (here the pull would produce two artifacts
yet the call succeeds), contradicting the claim's temp-pull rule for
every empty/devel version. -/
theorem pullAndLoadChart_url_counterexample :
    chartSpecUrlX.version = "" ∧
    chartFSX.tmpProduced.length ≠ 1 ∧
    PullAndLoadChart chartFSX chartSpecUrlX =
      .ok ("/tmp/charts/foo.tgz",
        [.pullTo chartCache, .loadF "/tmp/charts/foo.tgz"]) := by
  refine ⟨rfl, by decide, ?_⟩
  rfl

/-- C8 (amended): for every chart spec whose URL is empty — where chart
identity comes from repository+name+version — an empty or devel version
pulls into the fresh temporary directory, requires exactly one produced
artifact (any other count fails with the unexpected-directory-content
error) and renames it into the stable cache path before loading; any
other version computes the `name-version.tgz` cache path, pulls only if
it is absent, and loads it. -/
theorem pullAndLoadChart_cache_policy :
    (∀ (env : ChartFS) (spec : ChartSpec), spec.url = "" →
      (spec.version = "" ∨ spec.version = devel) →
      env.pullFails = false →
      (env.tmpProduced.length ≠ 1 →
        PullAndLoadChart env spec =
          .error (.msg (errUnexpectedDirContent
            (String.intercalate "," env.tmpProduced)))) ∧
      (∀ f, env.tmpProduced = [f] → env.loadFails = false →
        PullAndLoadChart env spec =
          .ok (chartCache ++ "/" ++ f,
            [.pullTo env.tmpDirName,
             .renameF (env.tmpDirName ++ "/" ++ f) (chartCache ++ "/" ++ f),
             .loadF (chartCache ++ "/" ++ f)]))) ∧
    (∀ (env : ChartFS) (spec : ChartSpec), spec.url = "" →
      spec.version ≠ "" → spec.version ≠ devel →
      (resolveChartFilePath spec.name spec.version ∈ env.cacheFiles →
        env.loadFails = false →
        PullAndLoadChart env spec =
          .ok (resolveChartFilePath spec.name spec.version,
            [.loadF (resolveChartFilePath spec.name spec.version)])) ∧
      (resolveChartFilePath spec.name spec.version ∉ env.cacheFiles →
        env.pullFails = false → env.loadFails = false →
        PullAndLoadChart env spec =
          .ok (resolveChartFilePath spec.name spec.version,
            [.pullTo chartCache,
             .loadF (resolveChartFilePath spec.name spec.version)]))) := by
  constructor
  · intro env spec hurl hver hpf
    constructor
    · intro hlen
      rcases henv : env.tmpProduced with _ | ⟨f, _ | ⟨g, rest⟩⟩
      · simp [PullAndLoadChart, pullLatestChartVersion, hurl, hver, hpf, henv]
      · rw [henv] at hlen
        simp at hlen
      · simp [PullAndLoadChart, pullLatestChartVersion, hurl, hver, hpf, henv]
    · intro f henv hlf
      simp [PullAndLoadChart, pullLatestChartVersion, hurl, hver, hpf, henv, hlf]
  · intro env spec hurl hv1 hv2
    have hoci : isOCI "" = false := by decide
    constructor
    · intro hmem hlf
      simp [PullAndLoadChart, hurl, hv1, hv2, hoci, hmem, hlf]
    · intro hmem hpf hlf
      simp [PullAndLoadChart, hurl, hv1, hv2, hoci, hmem, hpf, hlf]

def chartFSOneW : ChartFS :=
  { tmpDirName := "/tmp/charts/tmp9", tmpProduced := ["wp-1.0.0.tgz"]
    cacheFiles := ["/tmp/charts/wp-2.0.0.tgz"], pullFails := false, loadFails := false }

def chartSpecDevelW : ChartSpec :=
  { repository := "https://charts.example.com", name := "wp", version := ">0.0.0-0", url := "" }

def chartSpecPinnedW : ChartSpec :=
  { repository := "https://charts.example.com", name := "wp", version := "2.0.0", url := "" }

def chartSpecPinnedAbsentW : ChartSpec :=
  { repository := "https://charts.example.com", name := "wp", version := "3.0.0", url := "" }

theorem pullAndLoadChart_cache_policy_witness :
    (chartSpecDevelW.url = "" ∧ chartSpecDevelW.version = devel ∧
      chartFSOneW.tmpProduced = ["wp-1.0.0.tgz"] ∧
      PullAndLoadChart chartFSOneW chartSpecDevelW =
        .ok ("/tmp/charts/wp-1.0.0.tgz",
          [.pullTo "/tmp/charts/tmp9",
           .renameF "/tmp/charts/tmp9/wp-1.0.0.tgz" "/tmp/charts/wp-1.0.0.tgz",
           .loadF "/tmp/charts/wp-1.0.0.tgz"])) ∧
    (resolveChartFilePath chartSpecPinnedW.name chartSpecPinnedW.version ∈
        chartFSOneW.cacheFiles ∧
      PullAndLoadChart chartFSOneW chartSpecPinnedW =
        .ok (resolveChartFilePath "wp" "2.0.0",
          [.loadF (resolveChartFilePath "wp" "2.0.0")])) ∧
    (resolveChartFilePath chartSpecPinnedAbsentW.name chartSpecPinnedAbsentW.version ∉
        chartFSOneW.cacheFiles ∧
      PullAndLoadChart chartFSOneW chartSpecPinnedAbsentW =
        .ok (resolveChartFilePath "wp" "3.0.0",
          [.pullTo chartCache, .loadF (resolveChartFilePath "wp" "3.0.0")])) := by
  have hdev := (pullAndLoadChart_cache_policy.1 chartFSOneW chartSpecDevelW rfl
    (Or.inr rfl) rfl).2 "wp-1.0.0.tgz" rfl rfl
  have hmem : resolveChartFilePath "wp" "2.0.0" ∈ chartFSOneW.cacheFiles := by
    decide
  have habs : resolveChartFilePath "wp" "3.0.0" ∉ chartFSOneW.cacheFiles := by
    decide
  have hhit := (pullAndLoadChart_cache_policy.2 chartFSOneW chartSpecPinnedW rfl
    (by decide) (by decide)).1 hmem rfl
  have hmiss := (pullAndLoadChart_cache_policy.2 chartFSOneW chartSpecPinnedAbsentW rfl
    (by decide) (by decide)).2 habs rfl rfl
  exact ⟨⟨rfl, rfl, rfl, hdev⟩, ⟨hmem, hhit⟩, habs, hmiss⟩

end ProviderHelm
